import Mathlib

/-!
Verification development for `spicelib/log/ltsteps.py`.

The Python module is shallowly embedded: each input file is a `List String` of
raw lines (each line normally ends with a newline character, exactly as
produced by `file.readline()`); Python exceptions caused by line content are
modelled with `Except String`; Python `float` values appearing in the parsed
records are modelled exactly by `Dec`, an integer numerator over a
power-of-ten denominator (the log files carry finite decimal literals;
`inf`/`nan` literals and underscore digit separators are outside the model).
All string operations are implemented by structural recursion over the
character list so that concrete runs reduce inside the kernel.
-/

/-- Exact value of a finite decimal literal: `num / den` with `den` a power of
ten as produced by the literal parser.  Python compares floats by value, so
the embedded code uses the value comparisons `Dec.lt` / `Dec.veq` below. -/
structure Dec where
  num : Int
  den : Nat
deriving DecidableEq, Repr

def Dec.ofInt (i : Int) : Dec := ⟨i, 1⟩

/-- Value comparison `a < b` (denominators are positive powers of ten). -/
def Dec.lt (a b : Dec) : Bool := a.num * b.den < b.num * a.den

/-- Value comparison `a == b`. -/
def Dec.veq (a b : Dec) : Bool := a.num * b.den = b.num * a.den

/-- A coerced scalar value: Python's dynamic int / float / str outcome of
`try_convert_value`. -/
inductive Value where
  | int (i : Int)
  | float (d : Dec)
  | str (s : String)
deriving DecidableEq, Repr

/-! ## Python-style primitive helpers -/

/-- `pre.isPrefixOf s` on the underlying character lists: Python `str.startswith`. -/
def pyStartsWith (s pre : String) : Bool :=
  pre.data.isPrefixOf s.data

/-- Strip characters of `set` from both ends: Python `str.strip("...")`. -/
def pyStripSet (set : List Char) (s : String) : String :=
  ⟨((s.data.dropWhile (· ∈ set)).reverse.dropWhile (· ∈ set)).reverse⟩

/-- `line.strip('\r\n')` as used throughout the log reader. -/
def stripRN (s : String) : String := pyStripSet ['\r', '\n'] s

/-- `s.rstrip(c)`: drop trailing copies of `c` (used for the degree marker). -/
def pyRstripChar (c : Char) (s : String) : String :=
  ⟨(s.data.reverse.dropWhile (· = c)).reverse⟩

/-- `s[n:]` for a nonnegative index: Python slice used for `line[13:]`. -/
def pyDrop (n : Nat) (s : String) : String := ⟨s.data.drop n⟩

/-- Split at every character satisfying `p`, keeping empty pieces. -/
def splitPredAux (p : Char → Bool) : List Char → List Char → List (List Char)
  | [], acc => [acc.reverse]
  | c :: cs, acc =>
      if p c then acc.reverse :: splitPredAux p cs []
      else splitPredAux p cs (c :: acc)

/-- Python `str.split()` (no separator): split on whitespace runs, dropping
empty pieces. -/
def pySplitWs (s : String) : List String :=
  ((splitPredAux (fun c => c.isWhitespace) s.data []).map (fun l => (⟨l⟩ : String))).filter
    (fun t => t ≠ "")

/-- Split on a fixed non-empty separator, keeping empty pieces (Python
`str.split(sep)`).  `fuel` bounds the recursion; it is instantiated with the
length of the input, which suffices because every step consumes a character. -/
def splitOnAux (sep : List Char) : Nat → List Char → List Char → List (List Char)
  | _, [], acc => [acc.reverse]
  | 0, rest, acc => [acc.reverse ++ rest]
  | fuel + 1, c :: cs, acc =>
      if sep.isPrefixOf (c :: cs) then
        acc.reverse :: splitOnAux sep fuel (List.drop sep.length (c :: cs)) []
      else splitOnAux sep fuel cs (c :: acc)

/-- Python `s.split(sep)` for a non-empty separator. -/
def pySplitOn (s sep : String) : List String :=
  (splitOnAux sep.data s.data.length s.data []).map (fun l => (⟨l⟩ : String))

/-- Join with a separator (Python `sep.join(parts)`). -/
def joinSep (sep : String) : List String → String
  | [] => ""
  | [x] => x
  | x :: y :: xs => x ++ sep ++ joinSep sep (y :: xs)

/-- Lookup in an insertion-ordered dictionary (Python `dict.get`). -/
def dictGet? {K V : Type} [DecidableEq K] (d : List (K × V)) (k : K) : Option V :=
  match d with
  | [] => none
  | (k', v) :: rest => if k' = k then some v else dictGet? rest k

/-- Python `d[k] = v`: replace in place when the key exists (insertion order of
an existing key is preserved), otherwise append at the end. -/
def dictSet {K V : Type} [DecidableEq K] (d : List (K × V)) (k : K) (v : V) :
    List (K × V) :=
  match d with
  | [] => [(k, v)]
  | (k', v') :: rest =>
      if k' = k then (k', v) :: rest else (k', v') :: dictSet rest k v

/-- List indexing that raises: Python `xs[i]` with `IndexError`. -/
def pyIndexE {α : Type} (l : List α) (i : Nat) : Except String α :=
  match l.get? i with
  | some a => .ok a
  | none => .error "IndexError"

/-- Python truthiness of an optional string (`None` and `""` are falsy). -/
def pyTruthy : Option String → Bool
  | none => false
  | some s => s ≠ ""

/-! ## Numeric literal parsing (`int(...)` and `float(...)`) -/

def digitsToNat (ds : List Char) : Nat :=
  ds.foldl (fun a c => a * 10 + (c.toNat - 48)) 0

def trimWs (cs : List Char) : List Char :=
  ((cs.dropWhile Char.isWhitespace).reverse.dropWhile Char.isWhitespace).reverse

def digitsOk (ds : List Char) : Bool :=
  ds ≠ [] && ds.all Char.isDigit

/-- Python `int(s)`: optional surrounding whitespace, optional sign, one or
more decimal digits.  Returns `none` where Python raises `ValueError`. -/
def pyInt? (s : String) : Option Int :=
  match trimWs s.data with
  | '+' :: ds => if digitsOk ds then some (digitsToNat ds) else none
  | '-' :: ds => if digitsOk ds then some (-(digitsToNat ds : Int)) else none
  | ds => if digitsOk ds then some (digitsToNat ds) else none

def splitSign (cs : List Char) : Int × List Char :=
  match cs with
  | '+' :: r => (1, r)
  | '-' :: r => (-1, r)
  | r => (1, r)

/-- The exponent suffix of a float literal: `[eE][+-]?digits`, or nothing. -/
def pyFloatExp (cs : List Char) : Option (Int × Nat) :=
  match cs with
  | [] => some (1, 0)
  | e :: rr =>
      if e = 'e' ∨ e = 'E' then
        let (es, rr1) := splitSign rr
        let ed := rr1.takeWhile Char.isDigit
        if ed ≠ [] ∧ rr1.drop ed.length = [] then some (es, digitsToNat ed)
        else none
      else none

/-- Python `float(s)` restricted to finite decimal literals:
`[+-]?(digits[.digits?]|.digits)([eE][+-]?digits)?` with surrounding
whitespace allowed.  Returns `none` where Python raises `ValueError`. -/
def pyFloat? (s : String) : Option Dec :=
  let (sign, cs1) := splitSign (trimWs s.data)
  let ip := cs1.takeWhile Char.isDigit
  let r2 := cs1.drop ip.length
  let (fp, r3) :=
    match r2 with
    | '.' :: rr => (rr.takeWhile Char.isDigit, rr.drop (rr.takeWhile Char.isDigit).length)
    | _ => ([], r2)
  if ip = [] ∧ fp = [] then none
  else
    let num : Int := sign * (digitsToNat ip * 10 ^ fp.length + digitsToNat fp)
    let den : Nat := 10 ^ fp.length
    match pyFloatExp r3 with
    | none => none
    | some (es, e) =>
        if es ≥ 0 then some ⟨num * 10 ^ e, den⟩
        else some ⟨num, den * 10 ^ e⟩

def pyIntE (s : String) : Except String Int :=
  match pyInt? s with
  | some i => .ok i
  | none => .error "ValueError"

def pyFloatE (s : String) : Except String Dec :=
  match pyFloat? s with
  | some q => .ok q
  | none => .error "ValueError"

/-- Modelled from the spec: Value Coercion (§4.1).  The implementation
(`try_convert_value` in `spicelib/log/logfile_data.py`) is not among the
provided sources; per the spec it "attempts integer parse; on failure attempts
float parse; on failure returns the original text unchanged", never raising. -/
def try_convert_value (s : String) : Value :=
  match pyInt? s with
  | some i => .int i
  | none =>
      match pyFloat? s with
      | some q => .float q
      | none => .str s

/-! ## Decimal rendering (for the exported text cells)

Python renders cells with f-string interpolation; the exact float `repr` is
abstracted by this exact renderer.  All the claims need of it is that a
rendered number is never the literal `"all"`, which holds because a rendered
number always starts with a digit or `'-'`. -/

def natDigitsAux : Nat → Nat → List Char
  | 0, _ => []
  | fuel + 1, n =>
      if n < 10 then [Char.ofNat (48 + n)]
      else natDigitsAux fuel (n / 10) ++ [Char.ofNat (48 + n % 10)]

def natDigits (n : Nat) : List Char := natDigitsAux (n + 1) n

def showNat (n : Nat) : String := ⟨natDigits n⟩

def showInt (i : Int) : String :=
  if i < 0 then "-" ++ showNat i.natAbs else showNat i.natAbs

def showDec (d : Dec) : String :=
  if d.den = 1 then showInt d.num
  else showInt d.num ++ "/" ++ showNat d.den

def showValue : Value → String
  | .int i => showInt i
  | .float d => showDec d
  | .str s => s

example : pyInt? "42" = some 42 := by decide
example : pyInt? "-0" = some 0 := by decide
example : pyInt? "3.14" = none := by decide
example : pyFloat? "3.14" = some ⟨314, 100⟩ := by decide
example : pyFloat? "1e-3" = some ⟨1, 1000⟩ := by decide
example : pyFloat? "-0.0186257" = some ⟨-186257, 10000000⟩ := by decide
example : try_convert_value "400m" = .str "400m" := by decide
example : try_convert_value "42" = .int 42 := by decide
example : showDec ⟨-12, 10⟩ = "-12/10" := by decide
example : pySplitOn ".step x=1 x=2" " " = [".step", "x=1", "x=2"] := by decide
example : pySplitOn "a=b=c" "=" = ["a", "b", "c"] := by decide
example : pySplitWs " 1  2\t3 " = ["1", "2", "3"] := by decide
example : stripRN ".step x=1\r\n" = ".step x=1" := by decide
example : pyStartsWith "N-Periods=12" "N-Period" = true := by decide

/-! ## The stepless-measurement regular expression

Source (ltsteps.py line 317-320, `re.IGNORECASE`): name `\w+`, then an
optional `:` followed by whitespace and arbitrary text, then `=`, then the
value group — one or more characters of the class listed in the source
(digits, the letters of "inf"/"E"/"dB", parentheses, `+`, minus, comma,
degree sign, another `(`, minus, slash, and `\w`) — then optionally either
` FROM <g> TO <g>` or ` at <g>` where `<g>` is a possibly-empty run of
digits, `.`, `E`, `+`, minus.

The value character class reduces to word characters plus `( ) * + , - . / °`:
every letter of the class is already covered by `\w`, and the class's final
three characters before `\w` — an open parenthesis, a minus, a slash — form
a character RANGE from `(` (0x28) to `/` (0x2F), which contributes
`( ) * + , - . /` — in particular the dot, so decimal values match through
it.  Backtracking resolves deterministically: the optional
`(:\s+.*)?` group is tried first with the rightmost viable `=`; the value run
is maximal (its class excludes the space that both suffix branches require);
the suffix tries the FROM/TO branch, then the `at` branch, then empty.
Lines come from `readline` and contain at most a trailing newline, which is
where `.`/`\s` disagree; interior newlines do not occur. -/

def isWordChar (c : Char) : Bool := c.isAlphanum || c = '_'

def isValueChar (c : Char) : Bool :=
  isWordChar c || c ∈ ['(', ')', '*', '+', ',', '-', '.', '/', '°']

/-- The `[\d\.E+-]` class of the FROM/TO/at groups (case-insensitive `E`). -/
def isNumGroupChar (c : Char) : Bool :=
  c.isDigit || c ∈ ['.', 'E', 'e', '+', '-']

/-- Case-insensitive literal match, returning the remainder. -/
def stripPrefixCI : List Char → List Char → Option (List Char)
  | [], cs => some cs
  | _ :: _, [] => none
  | p :: ps, c :: cs => if p.toLower = c.toLower then stripPrefixCI ps cs else none

/-- Exact literal match, returning the remainder. -/
def stripPrefixL : List Char → List Char → Option (List Char)
  | [], cs => some cs
  | _ :: _, [] => none
  | p :: ps, c :: cs => if p = c then stripPrefixL ps cs else none

structure SteplessMatch where
  name : String
  value : String
  fromG : Option String
  toG : Option String
  atG : Option String
deriving DecidableEq, Repr

/-- The optional `( FROM .. TO ..| at ..)?` suffix, in alternation order. -/
def steplessSuffix (tail : List Char) : Option String × Option String × Option String :=
  match stripPrefixCI " FROM ".data tail with
  | some r1 =>
      let f := r1.takeWhile isNumGroupChar
      match stripPrefixCI " TO ".data (r1.drop f.length) with
      | some r2 => (some ⟨f⟩, some ⟨r2.takeWhile isNumGroupChar⟩, none)
      | none =>
          match stripPrefixCI " at ".data tail with
          | some r3 => (none, none, some ⟨r3.takeWhile isNumGroupChar⟩)
          | none => (none, none, none)
  | none =>
      match stripPrefixCI " at ".data tail with
      | some r3 => (none, none, some ⟨r3.takeWhile isNumGroupChar⟩)
      | none => (none, none, none)

/-- Try one candidate position `j` of `=` in the text after the name. -/
def steplessAtEq (name rest0 : List Char) (j : Nat) : Option SteplessMatch :=
  let afterEq := rest0.drop (j + 1)
  let v := afterEq.takeWhile isValueChar
  if v.isEmpty then none
  else
    let (f, t, a) := steplessSuffix (afterEq.drop v.length)
    some ⟨⟨name⟩, ⟨v⟩, f, t, a⟩

/-- Candidate `=` positions in regex preference order: with the greedy
`(:\s+.*)?` group present (rightmost `=` first), then with it empty (an `=`
immediately after the name). -/
def steplessCandidates (rest0 : List Char) : List Nat :=
  let colonOK :=
    match rest0 with
    | c0 :: c1 :: _ => c0 = ':' && c1.isWhitespace
    | _ => false
  let withColon :=
    if colonOK then
      ((List.range rest0.length).filter (fun j =>
        2 ≤ j && rest0.getD j ' ' = '=' && !((rest0.take j).drop 2).any (· = '\n'))).reverse
    else []
  withColon ++ (match rest0 with | '=' :: _ => [0] | _ => [])

/-- `regx.match(line)` for the stepless-measurement pattern. -/
def matchStepless (line : String) : Option SteplessMatch :=
  let cs := line.data
  let name := cs.takeWhile isWordChar
  if name.isEmpty then none
  else (steplessCandidates (cs.drop name.length)).findSome? (steplessAtEq name (cs.drop name.length))

/-! ## The "Step Information:" marker regular expression

Source (ltsteps.py lines 134 and 195):
`Step Information: ([\w=\d\. -]+) +\(Run: (\d*)/\d*\)\n`, used with
`regx.match`.  The class of group 1 contains the space, so the greedy group
keeps everything it can and gives exactly one space back to ` +`; the
characters between the group and the literal `(` must then all be spaces,
which forces the maximal class run to end in at least one space. -/

def isStepInfoChar (c : Char) : Bool :=
  isWordChar c || c ∈ ['=', '.', ' ', '-']

/-- `regx.match(line)` for the marker pattern: returns (group 1, run number). -/
def stepInfoMatch (line : String) : Option (String × String) :=
  match stripPrefixL "Step Information: ".data line.data with
  | none => none
  | some r0 =>
      let g := r0.takeWhile isStepInfoChar
      if 2 ≤ g.length ∧ g.getLast? = some ' ' then
        match stripPrefixL "(Run: ".data (r0.drop g.length) with
        | none => none
        | some r1 =>
            let d1 := r1.takeWhile Char.isDigit
            match r1.drop d1.length with
            | '/' :: r2 =>
                (match (r2.takeWhile Char.isDigit, r2.drop (r2.takeWhile Char.isDigit).length) with
                 | (_, ')' :: '\n' :: _) => some (⟨g.dropLast⟩, ⟨d1⟩)
                 | _ => none)
            | _ => none
      else none

/-! ## `re.search(r"\d+.\d+", line)` for the THD/PHD figures

Leftmost match; at a given start the first digit run is maximal, then gives
back digits until an arbitrary non-newline character followed by at least one
digit fits; the second digit run is maximal. -/

def searchDecCandidate (cs : List Char) : Nat → Option (List Char)
  | 0 => none
  | len1 + 1 =>
      match cs.drop (len1 + 1) with
      | [] => searchDecCandidate cs len1
      | x :: xs =>
          if x = '\n' then searchDecCandidate cs len1
          else
            let d2 := xs.takeWhile Char.isDigit
            if d2.isEmpty then searchDecCandidate cs len1
            else some (cs.take (len1 + 1) ++ x :: d2)

def searchDecAux : List Char → Option (List Char)
  | [] => none
  | c :: cs =>
      let d1 := (c :: cs).takeWhile Char.isDigit
      match searchDecCandidate (c :: cs) d1.length with
      | some m => some m
      | none => searchDecAux cs

/-- The matched text of `re.search(r"\d+.\d+", line)`, if any. -/
def searchDec (line : String) : Option String :=
  (searchDecAux line.data).map (fun l => (⟨l⟩ : String))

example :
    matchStepless "vout1m: v(out)=-0.0186257 at 0.001\n" =
      some ⟨"vout1m", "-0.0186257", none, none, some "0.001"⟩ := by decide
example :
    matchStepless "vout_rms: RMS(v(out))=1 FROM 0 TO 0.001\n" =
      some ⟨"vout_rms", "1", some "0", some "0.001", none⟩ := by decide
example :
    matchStepless "fcut: v(vout)=2 AT 252.921\n" =
      some ⟨"fcut", "2", none, none, some "252.921"⟩ := by decide
example : matchStepless "Circuit: test\n" = none := by decide
example : matchStepless "" = none := by decide
example :
    stepInfoMatch "Step Information: Ton=400m  (Run: 2/2)\n" =
      some ("Ton=400m ", "2") := by decide
example : stepInfoMatch "Step Information: garbage\n" = none := by decide
example : searchDec "Total Harmonic Distortion: 1.234%" = some "1.234" := by decide
example : searchDec "no numbers here" = none := by decide

instance {ε α : Type} [DecidableEq ε] [DecidableEq α] : DecidableEq (Except ε α) :=
  fun x y =>
    match x, y with
    | .ok a, .ok b => if h : a = b then isTrue (by rw [h]) else isFalse (by simp [h])
    | .error e, .error f => if h : e = f then isTrue (by rw [h]) else isFalse (by simp [h])
    | .ok _, .error _ => isFalse (by simp)
    | .error _, .ok _ => isFalse (by simp)

/-! ## The record model (`HarmonicData`, `FourierData`) -/

structure HarmonicData where
  harmonic_number : Int
  frequency : Dec
  fourier_component : Dec
  normalized_component : Dec
  phase : Dec
  normalized_phase : Dec
deriving DecidableEq, Repr

/-- `HarmonicData.from_line`: whitespace-tokenize and parse the six fields,
stripping the degree marker from the two phase fields.  Indexing and numeric
parsing raise exactly where Python would (`IndexError` on a short line,
`ValueError` on a non-numeric token). -/
def HarmonicData.from_line (line : String) : Except String HarmonicData := do
  let tokens := pySplitWs line
  let hn ← pyIntE (← pyIndexE tokens 0)
  let frequency ← pyFloatE (← pyIndexE tokens 1)
  let fourier_component ← pyFloatE (← pyIndexE tokens 2)
  let normalized_component ← pyFloatE (← pyIndexE tokens 3)
  let phase ← pyFloatE (pyRstripChar '°' (← pyIndexE tokens 4))
  let normalized_phase ← pyFloatE (pyRstripChar '°' (← pyIndexE tokens 5))
  pure ⟨hn, frequency, fourier_component, normalized_component, phase, normalized_phase⟩

structure FourierData where
  signal : String
  n_periods : Dec
  dc_component : Dec
  phd : Option Dec
  thd : Option Dec
  harmonics : List HarmonicData
  step : Int
deriving DecidableEq, Repr

/-- `FourierData.fundamental`: `self.harmonics[0].frequency`; raises
`IndexError` on an empty harmonics list. -/
def FourierData.fundamental (a : FourierData) : Except String Dec :=
  match a.harmonics with
  | [] => .error "IndexError"
  | h :: _ => .ok h.frequency

/-! ## The log parser (`LTSpiceLogReader.__init__`) -/

/-- The reader's mutable attributes.  `step_count`, `stepset`, `dataset` and
`measure_count` are initialized by `LogfileData.__init__` (outside the
provided sources); modelled from the spec: run counter 0, empty step set and
dataset, measurement counter 0.  Dataset keys are `Option String` because
Python permits `None` as a dict key (the measurement-table path can store
under a `None` name). -/
structure LogState where
  step_count : Nat
  stepset : List (String × List Value)
  dataset : List (Option String × List Value)
  measure_count : Nat
  fourier : List (String × List FourierData)
deriving DecidableEq, Repr

def initLogState : LogState := ⟨0, [], [], 0, []⟩

/-- The harmonic-table loop (ltsteps.py lines 348-360): per stripped line,
a "Total Harmonic" line sets THD from the embedded decimal search, a
"Partial Harmonic" line sets PHD, a blank line ends the table, and every
other line becomes a `HarmonicData` via `from_line`.  End of file reads as a
blank line.  Returns (phd, thd, harmonics, remaining lines). -/
def readTable : List String → Option Dec → Option Dec → List HarmonicData →
    Except String (Option Dec × Option Dec × List HarmonicData × List String)
  | [], phd, thd, acc => .ok (phd, thd, acc, [])
  | l :: rest, phd, thd, acc =>
      let line := stripRN l
      if pyStartsWith line "Total Harmonic" then
        match searchDec line with
        | none => .error "AttributeError"
        | some s =>
            match pyFloat? s with
            | none => .error "ValueError"
            | some v => readTable rest phd (some v) acc
      else if pyStartsWith line "Partial Harmonic" then
        match searchDec line with
        | none => .error "AttributeError"
        | some s =>
            match pyFloat? s with
            | none => .error "ValueError"
            | some v => readTable rest (some v) thd acc
      else if line = "" then .ok (phd, thd, acc, rest)
      else
        match HarmonicData.from_line line with
        | .error e => .error e
        | .ok h => readTable rest phd thd (acc ++ [h])

/-- The state-independent part of a Fourier block (ltsteps.py lines 327-360),
entered on a line starting with "N-Period": period count (`all` ↦ -1, else
`float`), signal name after " of ", DC component after ":", one blank and two
header lines skipped, then the harmonic table.  Returns the block's data and
the remaining lines. -/
def fourierParse (line : String) (rest : List String) :
    Except String ((String × Dec × Dec × Option Dec × Option Dec × List HarmonicData) ×
      List String) :=
  let nstr := (pySplitOn (stripRN line) "=").getLastD ""
  match if nstr = "all" then Except.ok (Dec.ofInt (-1)) else pyFloatE nstr with
  | .error e => .error e
  | .ok n_periods =>
      let signal := (pySplitOn (stripRN (rest.headD "")) " of ").getLastD ""
      match pyFloatE ((pySplitOn (stripRN ((rest.drop 1).headD "")) ":").getLastD "") with
      | .error e => .error e
      | .ok dc =>
          -- one blank line and two header lines are read and discarded, so
          -- the harmonic table begins at offset 5 (`readline` reads "" past
          -- the end of the file)
          match readTable (rest.drop 5) none none [] with
          | .error e => .error e
          | .ok (phd, thd, harmonics, rest') =>
              .ok ((signal, n_periods, dc, phd, thd, harmonics), rest')

/-- Append the finished `FourierData` to the per-signal sequence
(ltsteps.py lines 362-366), creating the sequence if the signal is new. -/
def fourierAppend (d : List (String × List FourierData)) (signal : String)
    (fd : FourierData) : List (String × List FourierData) :=
  match dictGet? d signal with
  | some l => dictSet d signal (l ++ [fd])
  | none => dictSet d signal [fd]

/-- The `.step` line handler (ltsteps.py lines 368-380): the run counter is
incremented, then each token after `.step` is split at `=` into exactly two
parts (`ValueError` otherwise), the value coerced and appended to the step
set (an entry that is absent — or present but empty, since Python tests the
list's truthiness — is (re)created as a singleton). -/
def stepsetAdd (d : List (String × List Value)) (k : String) (v : Value) :
    List (String × List Value) :=
  match dictGet? d k with
  | some vs => if vs.isEmpty then dictSet d k [v] else dictSet d k (vs ++ [v])
  | none => dictSet d k [v]

def parseStepTokens : List String → List (String × List Value) →
    Except String (List (String × List Value))
  | [], d => .ok d
  | tok :: toks, d =>
      match pySplitOn tok "=" with
      | [lhs, rhs] => parseStepTokens toks (stepsetAdd d lhs (try_convert_value rhs))
      | _ => .error "ValueError"

def parseStepLine (line : String) (st : LogState) : Except String LogState := do
  let st := { st with step_count := st.step_count + 1 }
  let tokens := pySplitOn (stripRN line) " "
  let d ← parseStepTokens tokens.tail st.stepset
  pure { st with stepset := d }

/-- The stepless-measurement branch (ltsteps.py lines 389-406): only when the
run counter is still 0, try the measurement regex on the raw line and store
each derived column as a single-element list. -/
def steplessStore (st : LogState) : List (String × String) → LogState
  | [] => st
  | (title, v) :: rest =>
      steplessStore
        { st with dataset := dictSet st.dataset (some title) [try_convert_value v] } rest

def steplessCheck (line : String) (st : LogState) : LogState :=
  if st.step_count = 0 then
    match matchStepless line with
    | none => st
    | some m =>
        let cols :=
          if pyTruthy m.fromG then
            [(m.name, m.value), (m.name ++ "_FROM", m.fromG.getD ""),
             (m.name ++ "_TO", m.toG.getD "")]
          else if pyTruthy m.atG then
            [(m.name, m.value), (m.name ++ "_at", m.atG.getD "")]
          else [(m.name, m.value)]
        steplessStore { st with measure_count := st.measure_count + 1 } cols
  else st

/-! ## The measurement-collection loop (ltsteps.py lines 409-456) -/

structure MeasAcc where
  dataname : Option String
  headers : List (Option String)
  measurements : List (List Value)
deriving DecidableEq, Repr

/-- Flush a finished measurement block into the dataset: the measurement
counter grows by the number of rows, then each header gets the column of the
k-th entries of all rows (`IndexError` when a row is too short). -/
def measFlushStep (measurements : List (List Value)) (st : LogState)
    (kt : Nat × Option String) : Except String LogState := do
  let col ← measurements.mapM (fun row => pyIndexE row kt.1)
  pure { st with dataset := dictSet st.dataset kt.2 col }

def measFlush (headers : List (Option String)) (measurements : List (List Value))
    (st : LogState) : Except String LogState :=
  (headers.enum).foldlM (measFlushStep measurements)
    { st with measure_count := st.measure_count + measurements.length }

/-- The header-row handler (ltsteps.py lines 436-441): the third token is
renamed when it is literally `FROM` or `at` (raising `TypeError` when no
measurement name is pending, as `None + str` would), likewise the fourth for
`TO`; the pending headers become the measurement name followed by the tokens
from position 2 on, and the accumulated rows are discarded. -/
def measHeaderRow (tokens : List String) (m : MeasAcc) : Except String MeasAcc := do
  let tokens ←
    if tokens.length ≥ 3 then
      if tokens.getD 2 "" = "FROM" ∨ tokens.getD 2 "" = "at" then
        match m.dataname with
        | none => .error "TypeError"
        | some d => pure (tokens.set 2 (d ++ "_" ++ tokens.getD 2 ""))
      else pure tokens
    else pure tokens
  let tokens ←
    if tokens.length ≥ 4 then
      if tokens.getD 3 "" = "TO" then
        match m.dataname with
        | none => .error "TypeError"
        | some d => pure (tokens.set 3 (d ++ "_TO"))
      else pure tokens
    else pure tokens
  pure
    { dataname := m.dataname,
      headers := m.dataname :: (tokens.drop 2).map some,
      measurements := [] }

/-- One iteration of the measurement loop body on a non-empty line. -/
def measLine (current : String) (m : MeasAcc) (st : LogState) :
    Except String (MeasAcc × LogState) := do
  let line := stripRN current
  if pyStartsWith line "Measurement: " then do
    let (m, st) ←
      if pyTruthy m.dataname then do
        let st ←
          if m.measurements.length ≠ 0 then measFlush m.headers m.measurements st
          else pure st
        pure (({ m with headers := [], measurements := [] } : MeasAcc), st)
      else pure (m, st)
    pure ({ m with dataname := some (pyDrop 13 line) }, st)
  else
    let tokens := pySplitOn line "\t"
    if tokens.length ≥ 2 then
      if (pyInt? (tokens.getD 0 "")).isSome then
        pure
          ({ m with
              measurements := m.measurements ++ [(tokens.drop 1).map try_convert_value] },
            { st with measure_count := st.measure_count + 1 })
      else do
        let m' ← measHeaderRow tokens m
        pure (m', st)
    else pure (m, st)

/-- The final flush at end of file (ltsteps.py lines 448-453): unlike the
mid-loop flush it does not require a truthy measurement name. -/
def measFinal (m : MeasAcc) (st : LogState) : Except String LogState :=
  if m.measurements.length ≠ 0 then measFlush m.headers m.measurements st
  else .ok st

/-- The measurement-collection loop, entered with `current` still holding the
"Measurement:" line that ended the preamble; the next `readline` yields the
head of the remaining lines, or ends the loop at end of file. -/
def parseMeas : String → List String → MeasAcc → LogState → Except String LogState
  | current, [], m, st =>
      if current = "" then measFinal m st
      else
        match measLine current m st with
        | .error e => .error e
        | .ok (m', st') => measFinal m' st'
  | current, l :: rest, m, st =>
      if current = "" then measFinal m st
      else
        match measLine current m st with
        | .error e => .error e
        | .ok (m', st') => parseMeas l rest m' st'

/-- The preamble scan (ltsteps.py lines 326-407).  `fuel` bounds the
recursion; `parseLog` instantiates it with the number of lines, which
suffices because every iteration consumes at least the current line.  After a
Fourier block the loop variable holds the blank terminator line, on which the
`.step` / `Measurement:` / stepless checks all fall through; this is kept
literally as `steplessCheck ""`. -/
def parsePre (rm : Bool) : Nat → List String → LogState → Except String LogState
  | _, [], st => .ok st
  | 0, _ :: _, _ => .error "fuel"
  | fuel + 1, line :: rest, st =>
      if line = "" then .ok st
      else if pyStartsWith line "N-Period" then
        match fourierParse line rest with
        | .error e => .error e
        | .ok ((signal, n_periods, dc, phd, thd, harmonics), rest') =>
            let fd : FourierData :=
              ⟨signal, n_periods, dc, phd, thd, harmonics, (st.step_count : Int) - 1⟩
            let st := { st with fourier := fourierAppend st.fourier signal fd }
            parsePre rm fuel rest' (steplessCheck "" st)
      else if pyStartsWith line ".step" then
        match parseStepLine line st with
        | .error e => .error e
        | .ok st' => parsePre rm fuel rest (steplessCheck "" st')
      else if pyStartsWith line "Measurement:" then
        if rm then parseMeas line rest ⟨none, [], []⟩ st else .ok st
      else parsePre rm fuel rest (steplessCheck line st)

/-- `LTSpiceLogReader.__init__` on the file's lines (with `read_measures` as
given; the constructor default is `True`). -/
def parseLogRM (rm : Bool) (lines : List String) : Except String LogState :=
  parsePre rm lines.length lines initLogState

def parseLog (lines : List String) : Except String LogState := parseLogRM true lines

example : parseLog [".step x=1\n", ".step x=2\n"] =
    .ok ⟨2, [("x", [.int 1, .int 2])], [], 0, []⟩ := by decide
example : parseLog [".step frobnicate\n"] = .error "ValueError" := by decide
example : parseLog [".step x=1 x=2\n"] =
    .ok ⟨1, [("x", [.int 1, .int 2])], [], 0, []⟩ := by decide
example : parseLog ["vout1m: v(out)=-0.0186257 at 0.001\n"] =
    .ok ⟨0, [],
      [(some "vout1m", [.float ⟨-186257, 10000000⟩]),
       (some "vout1m_at", [.float ⟨1, 1000⟩])], 1, []⟩ := by decide

/-! ## `LTSpiceExport.__init__` (ltsteps.py lines 183-223) -/

structure ExportState where
  headers : List String
  curr_dic : List (String × Value)
  dataset : List (String × List Value)
  go_header : Bool
deriving DecidableEq, Repr

/-- Append to an existing dataset column; Python raises `KeyError` when the
column was never created. -/
def datasetAppend (ds : List (String × List Value)) (k : String) (v : Value) :
    Except String (List (String × List Value)) :=
  match dictGet? ds k with
  | some col => .ok (dictSet ds k (col ++ [v]))
  | none => .error "KeyError"

/-- One line of the export-reader loop: a matching marker updates the pending
record (and initializes the dataset columns once); any other line appends the
pending record's values and then the row's coerced fields by header
position. -/
def exportLine (st : ExportState) (line : String) : Except String ExportState :=
  if pyStartsWith line "Step Information:" then
    match stepInfoMatch line with
    | some (step, run_no) => do
        let cd := dictSet st.curr_dic "runno" (.str run_no)
        let cd ←
          (pySplitWs step).foldlM
            (fun cd param =>
              match pySplitOn param "=" with
              | [key, value] => pure (dictSet cd key (try_convert_value value))
              | _ => .error "ValueError")
            cd
        if st.go_header then
          let ds := st.headers.foldl (fun ds k => dictSet ds k ([] : List Value)) st.dataset
          let ds := cd.foldl (fun ds kv => dictSet ds kv.1 ([] : List Value)) ds
          pure ⟨st.headers, cd, ds, false⟩
        else pure { st with curr_dic := cd }
    | none => pure st
  else do
    let values := pySplitOn line "\t"
    let ds ← st.curr_dic.foldlM (fun ds kv => datasetAppend ds kv.1 kv.2) st.dataset
    let ds ←
      (values.enum).foldlM
        (fun ds iv => do
          let key ← pyIndexE st.headers iv.1
          datasetAppend ds key (try_convert_value iv.2))
        ds
    pure { st with dataset := ds }

/-- `LTSpiceExport("file")`: read the header line, then fold the loop body
over the remaining lines. -/
def ltspiceExportRead (lines : List String) : Except String ExportState :=
  lines.tail.foldlM exportLine ⟨pySplitOn (lines.headD "") "\t", [], [], true⟩

/-! ## `reformat_LTSpice_export` (ltsteps.py lines 100-158) -/

/-- The tab-joined parameter values of a marker's group 1
(`param.split('=')[1]` raises `IndexError` on a token without `=`). -/
def pvOfStep (step : String) : Except String String := do
  let ps ← (pySplitWs step).mapM (fun p => pyIndexE (pySplitOn p "=") 1)
  pure (joinSep "\t" ps)

/-- The tab-joined parameter names of a marker's group 1
(`param.split('=')[0]` always exists). -/
def phOfStep (step : String) : String :=
  joinSep "\t" ((pySplitWs step).map (fun p => (pySplitOn p "=").getD 0 ""))

def reformatLoop (headers : String) :
    List String → Bool → String → String → Except String (List String)
  | [], _, _, _ => .ok []
  | line :: rest, go_header, run_no, param_values =>
      if pyStartsWith line "Step Information:" then
        match stepInfoMatch line with
        | some sr =>
            match pvOfStep sr.1 with
            | .error e => .error e
            | .ok pv =>
                let hdr : List String :=
                  if go_header then ["Run\t" ++ phOfStep sr.1 ++ "\t" ++ headers] else []
                match reformatLoop headers rest false sr.2 pv with
                | .error e => .error e
                | .ok out => .ok (hdr ++ out)
        | none => reformatLoop headers rest go_header run_no param_values
      else
        match reformatLoop headers rest go_header run_no param_values with
        | .error e => .error e
        | .ok out => .ok ((run_no ++ "\t" ++ param_values ++ "\t" ++ line) :: out)

/-- `reformat_LTSpice_export` as the list of lines written to the output
file: header line read first, then the loop with `run_no = 0`,
`param_values = ""` (both placeholders overridden by the first matching
marker). -/
def reformat_LTSpice_export (lines : List String) : Except String (List String) :=
  reformatLoop (lines.headD "") lines.tail true "0" ""

/-! ## `export_data` — the Fourier companion file (ltsteps.py lines 458-498) -/

/-- Python `str.rfind(c)`: index of the last occurrence, -1 when absent. -/
def pyRfind (c : Char) : List Char → Int
  | [] => -1
  | x :: xs =>
      let r := pyRfind c xs
      if r ≥ 0 then r + 1 else if x = c then 0 else -1

/-- `os.path.splitext` (posix): split at the last dot that comes after the
last slash, unless every character between them is a dot. -/
def pySplitext (p : String) : String × String :=
  let cs := p.data
  let sepIndex := pyRfind '/' cs
  let dotIndex := pyRfind '.' cs
  if dotIndex > sepIndex then
    let start := (sepIndex + 1).toNat
    if ((cs.drop start).take (dotIndex.toNat - start)).any (fun ch => ch ≠ '.') then
      (⟨cs.take dotIndex.toNat⟩, ⟨cs.drop dotIndex.toNat⟩)
    else (p, "")
  else (p, "")

/-- The Fourier companion file name:
`os.path.splitext(export_file)[0] + "_fourier.txt"` (ltsteps.py line 462). -/
def fourierExportName (export_file : String) : String :=
  (pySplitext export_file).1 ++ "_fourier.txt"

def showOptDec : Option Dec → String
  | none => "None"
  | some d => showDec d

/-- One summary row in the sweep case (ltsteps.py lines 474-485): the
"N-Periods" cell is `"all"` when `analysis.n_periods < 1`. -/
def steppedSummaryRow (step_values : List String) (signal : String) (a : FourierData) :
    Except String (List String) := do
  let fund ← a.fundamental
  let nper := if Dec.lt a.n_periods (Dec.ofInt 1) then "all" else showDec a.n_periods
  pure (step_values ++ [signal, nper, showDec a.dc_component, showDec fund,
    showNat a.harmonics.length, showOptDec a.phd, showOptDec a.thd])

/-- One summary row in the no-sweep case (ltsteps.py lines 487-498): the
"N-Periods" cell is `"all"` when `analysis.n_periods == -1`. -/
def unsteppedSummaryRow (signal : String) (a : FourierData) :
    Except String (List String) := do
  let fund ← a.fundamental
  let nper := if Dec.veq a.n_periods (Dec.ofInt (-1)) then "all" else showDec a.n_periods
  pure ([signal, nper, showDec a.dc_component, showDec fund,
    showNat a.harmonics.length, showOptDec a.phd, showOptDec a.thd])

def steppedAnalysisStep (step_values : List String) (signal : String) (step_no : Nat)
    (rows : List (List String)) (a : FourierData) : Except String (List (List String)) :=
  if a.step = (step_no : Int) then do
    let r ← steppedSummaryRow step_values signal a
    pure (rows ++ [r])
  else pure rows

def steppedSignalStep (st : LogState) (sa : String × List FourierData)
    (rows : List (List String)) (step_no : Nat) : Except String (List (List String)) := do
  let step_values ←
    st.stepset.mapM (fun kv => do
      let v ← pyIndexE kv.2 step_no
      pure (showValue v))
  sa.2.foldlM (steppedAnalysisStep step_values sa.1 step_no) rows

def steppedSignalRows (st : LogState) (rows : List (List String))
    (sa : String × List FourierData) : Except String (List (List String)) :=
  (List.range st.step_count).foldlM (steppedSignalStep st sa) rows

def unsteppedRowsStep (signal : String) (rows : List (List String)) (a : FourierData) :
    Except String (List (List String)) := do
  let r ← unsteppedSummaryRow signal a
  pure (rows ++ [r])

def unsteppedSignalRows (rows : List (List String)) (sa : String × List FourierData) :
    Except String (List (List String)) :=
  sa.2.foldlM (unsteppedRowsStep sa.1) rows

/-- The rows of the summary table of the Fourier companion file: per signal,
per run in ascending order (matching each analysis by its owning run), or per
analysis when there is no sweep.  The per-run step values are indexed before
the analyses are filtered, as in the source. -/
def fourierSummary (st : LogState) : Except String (List (List String)) :=
  if st.step_count > 0 then st.fourier.foldlM (steppedSignalRows st) []
  else st.fourier.foldlM unsteppedSignalRows []

example : ltspiceExportRead ["a\tb\n", "1\t2\n"] = .error "KeyError" := by decide
example : pySplitext "out.tsv" = ("out", ".tsv") := by decide
example : pySplitext "dir.d/noext" = ("dir.d/noext", "") := by decide
example : pySplitext ".bashrc" = (".bashrc", "") := by decide
example : fourierExportName "out.tsv" = "out_fourier.txt" := by decide
def exampleHarm : HarmonicData :=
  { harmonic_number := 1, frequency := ⟨1000, 1⟩, fourier_component := ⟨1, 1⟩,
    normalized_component := ⟨1, 1⟩, phase := ⟨0, 1⟩, normalized_phase := ⟨0, 1⟩ }

def exampleFourier : FourierData :=
  { signal := "V(out)", n_periods := ⟨1, 1⟩, dc_component := ⟨5, 10⟩,
    phd := none, thd := none, harmonics := [exampleHarm], step := -1 }

example :
    parseLog ["N-Periods=1\n", "Fourier components of V(out)\n",
      "DC component:0.5\n", "\n", "h\n", "h\n",
      "1\t1000\t1\t1\t0\t0\n", "\n"] =
      .ok ⟨0, [], [], 0, [("V(out)", [exampleFourier])]⟩ := by decide

/-! ## Scan-level specification functions

These mirror the preamble's consumption of lines (Fourier blocks swallow
their table; the scan stops at a blank line, at a "Measurement:" line, or at
end of file) and name what the parser is supposed to record: the `.step`
lines it encounters and the values each such line carries for one parameter
name. -/

/-- The `.step` lines the preamble scan encounters, in file order. -/
def stepLinesEnc : Nat → List String → List String
  | _, [] => []
  | 0, _ :: _ => []
  | fuel + 1, line :: rest =>
      if line = "" then []
      else if pyStartsWith line "N-Period" then
        match fourierParse line rest with
        | .error _ => []
        | .ok (_, rest') => stepLinesEnc fuel rest'
      else if pyStartsWith line ".step" then line :: stepLinesEnc fuel rest
      else if pyStartsWith line "Measurement:" then []
      else stepLinesEnc fuel rest

/-- The coerced values carried by one `.step` line for parameter `p`, in
token order (tokens that do not split at `=` into exactly two parts carry
nothing — on such a line the parser raises instead). -/
def lineVals (p : String) (line : String) : List Value :=
  ((pySplitOn (stripRN line) " ").tail).filterMap (fun tok =>
    match pySplitOn tok "=" with
    | [lhs, rhs] => if lhs = p then some (try_convert_value rhs) else none
    | _ => none)

/-- All values recorded for parameter `p` across the encountered `.step`
lines, in file order. -/
def encVals (p : String) (fuel : Nat) (lines : List String) : List Value :=
  ((stepLinesEnc fuel lines).map (lineVals p)).flatten

example : stepLinesEnc 2 [".step x=1\n", ".step x=2\n"] =
    [".step x=1\n", ".step x=2\n"] := by decide
example : encVals "x" 2 [".step x=1\n", ".step x=2\n"] = [.int 1, .int 2] := by decide

/-! ## Claim C1 -/

theorem parsePre_ok_of_unrecognized (rm : Bool) (fuel : Nat) :
    ∀ (lines : List String) (st : LogState), lines.length ≤ fuel →
      (∀ l ∈ lines, pyStartsWith l ".step" = false ∧ pyStartsWith l "N-Period" = false ∧
        pyStartsWith l "Measurement:" = false) →
      ∃ st', parsePre rm fuel lines st = .ok st' := by
  induction fuel with
  | zero =>
      intro lines st hf _
      have : lines = [] := List.eq_nil_of_length_eq_zero (Nat.le_zero.mp hf)
      subst this
      exact ⟨st, rfl⟩
  | succ fuel ih =>
      intro lines st hf h
      cases lines with
      | nil => exact ⟨st, rfl⟩
      | cons l rest =>
          have hl := h l (List.mem_cons_self l rest)
          by_cases hemp : l = ""
          · exact ⟨st, by simp [parsePre, hemp]⟩
          · have : parsePre rm (fuel + 1) (l :: rest) st =
                parsePre rm fuel rest (steplessCheck l st) := by
              simp [parsePre, hemp, hl.1, hl.2.1, hl.2.2]
            rw [this]
            exact ih rest (steplessCheck l st) (by simpa using Nat.le_of_succ_le_succ hf)
              (fun x hx => h x (List.mem_cons_of_mem l hx))

/-- C1 (amended): a line that carries none of the recognized prefixes
(".step", "N-Period", "Measurement:") is skipped or handled without raising,
so a file made of such lines always parses; but — contrary to the claim as
stated — a ".step" line containing a space-separated token without "=", or a
malformed Fourier-table line, does raise (see the counterexample). -/
theorem parseLog_ok_of_unrecognized_lines (lines : List String)
    (h : ∀ l ∈ lines, pyStartsWith l ".step" = false ∧ pyStartsWith l "N-Period" = false ∧
      pyStartsWith l "Measurement:" = false) :
    ∃ st, parseLog lines = .ok st :=
  parsePre_ok_of_unrecognized true lines.length lines initLogState (Nat.le_refl _) h

/-- C1 witness: the amended theorem applied to a concrete two-line file. -/
theorem parseLog_ok_of_unrecognized_lines_witness :
    ∃ st, parseLog ["hello world\n", "x: y(z)=broken text\n"] = .ok st :=
  parseLog_ok_of_unrecognized_lines ["hello world\n", "x: y(z)=broken text\n"]
    (by decide)

/-- C1 counterexample: a line beginning with ".step" whose second token has
no "=" makes the constructor raise `ValueError` (from the two-element unpack
of `tok.split("=")`), refuting "a line beginning with .step that contains a
space-separated token without an = sign still does not raise". -/
theorem parseLog_step_token_without_eq_raises :
    parseLog [".step frobnicate\n"] = .error "ValueError" := by decide

/-! ## Claim C2 -/

/-- C2 (code_bug): on an export file with a header line, tab-delimited data
rows and no "Step Information:" marker, `LTSpiceExport.__init__` raises
`KeyError` at the first data row: the dataset columns are only ever
initialized inside the first matched marker's branch, contradicting the
claim (and the class's own docstring) that the dataset is populated by
header position with no "runno" key. -/
theorem ltspiceExport_no_marker_raises :
    ltspiceExportRead ["a\tb\n", "1\t2\n"] = .error "KeyError" := by decide

/-! ## Claim C5 -/

/-- C5 (confirmed): for a stepless log containing the point measurement
`vout1m: v(out)=-0.0186257 at 0.001`, the parser stores exactly two dataset
columns: `vout1m` holding the single coerced value -0.0186257 and
`vout1m_at` holding the single coerced value 0.001.  The value group's
character class contains the range from `(` to `/` and hence the dot, so the
value matches through the decimal point and the ` at ` suffix group fires. -/
theorem parseLog_point_measurement_two_columns :
    parseLog ["vout1m: v(out)=-0.0186257 at 0.001\n"] =
      .ok ⟨0, [],
        [(some "vout1m", [.float ⟨-186257, 10000000⟩]),
         (some "vout1m_at", [.float ⟨1, 1000⟩])], 1, []⟩ := by decide

/-! ## Claim C3 — dictionary and step-set lemmas -/

theorem dictGet_dictSet_self {K V : Type} [DecidableEq K] (d : List (K × V)) (k : K) (v : V) :
    dictGet? (dictSet d k v) k = some v := by
  induction d with
  | nil => simp [dictSet, dictGet?]
  | cons kv rest ih =>
      obtain ⟨k', v'⟩ := kv
      by_cases h : k' = k
      · simp [dictSet, dictGet?, h]
      · simp [dictSet, dictGet?, h, ih]

theorem dictGet_dictSet_ne {K V : Type} [DecidableEq K] (d : List (K × V)) (k k' : K) (v : V)
    (h : k' ≠ k) : dictGet? (dictSet d k v) k' = dictGet? d k' := by
  have h' : ¬ k = k' := fun hh => h hh.symm
  induction d with
  | nil => simp [dictSet, dictGet?, h']
  | cons kv rest ih =>
      obtain ⟨k0, v0⟩ := kv
      by_cases h0 : k0 = k
      · subst h0
        simp [dictSet, dictGet?, h']
      · simp [dictSet, dictGet?, h0, ih]

theorem stepsetAdd_get_self (d : List (String × List Value)) (k : String) (v : Value) :
    dictGet? (stepsetAdd d k v) k = some ((dictGet? d k).getD [] ++ [v]) := by
  unfold stepsetAdd
  cases h : dictGet? d k with
  | none => simp [dictGet_dictSet_self]
  | some vs =>
      by_cases he : vs.isEmpty
      · rw [List.isEmpty_iff] at he
        subst he
        simp [dictGet_dictSet_self]
      · simp [he, dictGet_dictSet_self]

theorem stepsetAdd_get_ne (d : List (String × List Value)) (k p : String) (v : Value)
    (h : p ≠ k) : dictGet? (stepsetAdd d k v) p = dictGet? d p := by
  unfold stepsetAdd
  cases dictGet? d k with
  | none => simp [dictGet_dictSet_ne _ _ _ _ h]
  | some vs =>
      by_cases he : vs.isEmpty <;> simp [he, dictGet_dictSet_ne _ _ _ _ h]

/-- The effect of a sequence of recorded values on one step-set entry: nothing
when no value is recorded, otherwise the values are appended to the existing
entry (an absent or empty entry contributes nothing, matching the parser's
truthiness test). -/
def updVals (prev : Option (List Value)) (vals : List Value) : Option (List Value) :=
  if vals = [] then prev else some (prev.getD [] ++ vals)

theorem updVals_append (prev : Option (List Value)) (a b : List Value) :
    updVals (updVals prev a) b = updVals prev (a ++ b) := by
  by_cases ha : a = []
  · subst ha; simp [updVals]
  · by_cases hb : b = []
    · subst hb; simp [updVals, ha]
    · have hab : a ++ b ≠ [] := by simp [ha]
      simp [updVals, ha, hb, hab, List.append_assoc]

theorem parseStepTokens_get (p : String) :
    ∀ (toks : List String) (d d' : List (String × List Value)),
      parseStepTokens toks d = .ok d' →
      dictGet? d' p = updVals (dictGet? d p)
        (toks.filterMap (fun tok =>
          match pySplitOn tok "=" with
          | [lhs, rhs] => if lhs = p then some (try_convert_value rhs) else none
          | _ => none)) := by
  intro toks
  induction toks with
  | nil =>
      intro d d' h
      simp only [parseStepTokens] at h
      cases h
      simp [updVals]
  | cons tok toks ih =>
      intro d d' h
      simp only [parseStepTokens] at h
      split at h
      case _ lhs rhs heq =>
        by_cases hlp : lhs = p
        · subst hlp
          rw [List.filterMap_cons]
          simp only [heq, if_pos rfl]
          rw [ih _ _ h, stepsetAdd_get_self]
          have h1 : some ((dictGet? d lhs).getD [] ++ [try_convert_value rhs]) =
              updVals (dictGet? d lhs) [try_convert_value rhs] := by
            simp [updVals]
          rw [h1, updVals_append]
          rfl
        · rw [List.filterMap_cons]
          simp only [heq, if_neg hlp]
          rw [ih _ _ h, stepsetAdd_get_ne _ _ _ _ (fun hh => hlp hh.symm)]
      case _ =>
        exact absurd h (by simp)

/-! ## Claim C3 — the measurement phase and the Fourier block leave the step
data untouched -/

theorem steplessStore_fields :
    ∀ (cols : List (String × String)) (st : LogState),
      (steplessStore st cols).step_count = st.step_count ∧
      (steplessStore st cols).stepset = st.stepset := by
  intro cols
  induction cols with
  | nil => intro st; exact ⟨rfl, rfl⟩
  | cons c cs ih =>
      intro st
      simpa [steplessStore] using ih _

theorem steplessCheck_fields (l : String) (st : LogState) :
    (steplessCheck l st).step_count = st.step_count ∧
    (steplessCheck l st).stepset = st.stepset := by
  unfold steplessCheck
  split
  · split
    · exact ⟨rfl, rfl⟩
    · simpa using steplessStore_fields _ _
  · exact ⟨rfl, rfl⟩

theorem measFlushStep_fields (ms : List (List Value)) (st st' : LogState)
    (kt : Nat × Option String) (h : measFlushStep ms st kt = .ok st') :
    st'.step_count = st.step_count ∧ st'.stepset = st.stepset := by
  simp only [measFlushStep, bind, Except.bind] at h
  split at h
  · exact absurd h (by simp)
  · simp only [pure, Except.pure, Except.ok.injEq] at h
    subst h
    exact ⟨rfl, rfl⟩

theorem measFold_fields :
    ∀ (l : List (Nat × Option String)) (ms : List (List Value)) (st st' : LogState),
      l.foldlM (measFlushStep ms) st = .ok st' →
      st'.step_count = st.step_count ∧ st'.stepset = st.stepset := by
  intro l
  induction l with
  | nil =>
      intro ms st st' h
      simp only [List.foldlM_nil, pure, Except.pure, Except.ok.injEq] at h
      subst h
      exact ⟨rfl, rfl⟩
  | cons kt l ih =>
      intro ms st st' h
      simp only [List.foldlM_cons, bind, Except.bind] at h
      split at h
      · exact absurd h (by simp)
      case _ st1 hstep =>
        obtain ⟨h1, h2⟩ := measFlushStep_fields ms st st1 kt hstep
        obtain ⟨h3, h4⟩ := ih ms st1 st' h
        exact ⟨h3.trans h1, h4.trans h2⟩

theorem measFlush_fields (hs : List (Option String)) (ms : List (List Value))
    (st st' : LogState) (h : measFlush hs ms st = .ok st') :
    st'.step_count = st.step_count ∧ st'.stepset = st.stepset := by
  unfold measFlush at h
  exact measFold_fields hs.enum ms
    { st with measure_count := st.measure_count + ms.length } st' h

theorem measFinal_fields (m : MeasAcc) (st st' : LogState)
    (h : measFinal m st = .ok st') :
    st'.step_count = st.step_count ∧ st'.stepset = st.stepset := by
  unfold measFinal at h
  split at h
  · exact measFlush_fields _ _ _ _ h
  · cases h; exact ⟨rfl, rfl⟩

theorem measLine_fields (c : String) (m : MeasAcc) (st : LogState) (m' : MeasAcc)
    (st' : LogState) (h : measLine c m st = .ok (m', st')) :
    st'.step_count = st.step_count ∧ st'.stepset = st.stepset := by
  simp only [measLine, bind, Except.bind, pure, Except.pure] at h
  split at h
  · -- "Measurement: " branch
    split at h
    · -- truthy dataname: possible mid-flush
      split at h
      · -- measurements nonempty: measFlush
        split at h
        · exact absurd h (by simp)
        case _ st1 hfl =>
          simp only [Except.ok.injEq, Prod.mk.injEq] at h
          obtain ⟨-, h2⟩ := h
          subst h2
          exact measFlush_fields _ _ _ _ hfl
      · simp only [Except.ok.injEq, Prod.mk.injEq] at h
        obtain ⟨-, h2⟩ := h
        subst h2
        exact ⟨rfl, rfl⟩
    · simp only [Except.ok.injEq, Prod.mk.injEq] at h
      obtain ⟨-, h2⟩ := h
      subst h2
      exact ⟨rfl, rfl⟩
  · -- data / header-row branch
    split at h
    · split at h
      · -- data row
        simp only [Except.ok.injEq, Prod.mk.injEq] at h
        obtain ⟨-, h2⟩ := h
        subst h2
        exact ⟨rfl, rfl⟩
      · -- header row: renames may raise, state unchanged on success
        split at h
        · exact absurd h (by simp)
        · simp only [Except.ok.injEq, Prod.mk.injEq] at h
          obtain ⟨-, h2⟩ := h
          subst h2
          exact ⟨rfl, rfl⟩
    · simp only [Except.ok.injEq, Prod.mk.injEq] at h
      obtain ⟨-, h2⟩ := h
      subst h2
      exact ⟨rfl, rfl⟩

theorem parseMeas_fields :
    ∀ (lines : List String) (c : String) (m : MeasAcc) (st st' : LogState),
      parseMeas c lines m st = .ok st' →
      st'.step_count = st.step_count ∧ st'.stepset = st.stepset := by
  intro lines
  induction lines with
  | nil =>
      intro c m st st' h
      simp only [parseMeas] at h
      split at h
      · exact measFinal_fields m st st' h
      · split at h
        · exact absurd h (by simp)
        case _ m1 st1 hml =>
          obtain ⟨h1, h2⟩ := measLine_fields c m st m1 st1 hml
          obtain ⟨h3, h4⟩ := measFinal_fields m1 st1 st' h
          exact ⟨h3.trans h1, h4.trans h2⟩
  | cons l rest ih =>
      intro c m st st' h
      simp only [parseMeas] at h
      split at h
      · exact measFinal_fields m st st' h
      · split at h
        · exact absurd h (by simp)
        case _ m1 st1 hml =>
          obtain ⟨h1, h2⟩ := measLine_fields c m st m1 st1 hml
          obtain ⟨h3, h4⟩ := ih l m1 st1 st' h
          exact ⟨h3.trans h1, h4.trans h2⟩

/-! ## Claim C3 — the Fourier block consumes a suffix of the lines -/

theorem readTable_rest_le :
    ∀ (ls : List String) (phd thd : Option Dec) (acc : List HarmonicData)
      (p t : Option Dec) (hs : List HarmonicData) (rest' : List String),
      readTable ls phd thd acc = .ok (p, t, hs, rest') → rest'.length ≤ ls.length := by
  intro ls
  induction ls with
  | nil =>
      intro phd thd acc p t hs rest' h
      simp only [readTable, Except.ok.injEq, Prod.mk.injEq] at h
      obtain ⟨-, -, -, h4⟩ := h
      simp [← h4]
  | cons l rest ih =>
      intro phd thd acc p t hs rest' h
      simp only [readTable] at h
      split at h
      · split at h
        · exact absurd h (by simp)
        · split at h
          · exact absurd h (by simp)
          · exact Nat.le_succ_of_le (ih _ _ _ _ _ _ _ h)
      · split at h
        · split at h
          · exact absurd h (by simp)
          · split at h
            · exact absurd h (by simp)
            · exact Nat.le_succ_of_le (ih _ _ _ _ _ _ _ h)
        · split at h
          · simp only [Except.ok.injEq, Prod.mk.injEq] at h
            obtain ⟨-, -, -, h4⟩ := h
            simp [← h4]
          · split at h
            · exact absurd h (by simp)
            · exact Nat.le_succ_of_le (ih _ _ _ _ _ _ _ h)

theorem fourierParse_rest_le (line : String) (rest : List String)
    (core : String × Dec × Dec × Option Dec × Option Dec × List HarmonicData)
    (rest' : List String) (h : fourierParse line rest = .ok (core, rest')) :
    rest'.length ≤ rest.length := by
  simp only [fourierParse] at h
  split at h
  · exact absurd h (by simp)
  · split at h
    · exact absurd h (by simp)
    · split at h
      · exact absurd h (by simp)
      case _ phd thd harmonics r hr =>
        simp only [Except.ok.injEq, Prod.mk.injEq] at h
        obtain ⟨-, h2⟩ := h
        subst h2
        calc r.length ≤ (rest.drop 5).length := readTable_rest_le _ _ _ _ _ _ _ _ hr
          _ ≤ rest.length := by simp [List.length_drop]

theorem parseStepLine_spec (line : String) (st st' : LogState)
    (h : parseStepLine line st = .ok st') :
    st'.step_count = st.step_count + 1 ∧
    ∀ p, dictGet? st'.stepset p = updVals (dictGet? st.stepset p) (lineVals p line) := by
  simp only [parseStepLine, bind, Except.bind] at h
  split at h
  · exact absurd h (by simp)
  case _ d hd =>
    simp only [pure, Except.pure, Except.ok.injEq] at h
    subst h
    refine ⟨rfl, fun p => ?_⟩
    have hg := parseStepTokens_get p ((pySplitOn (stripRN line) " ").tail) st.stepset d hd
    simpa [lineVals] using hg


/-- After a Fourier block (and after a `.step` line) the loop variable holds
the blank terminator; the stepless check on it does nothing. -/
theorem steplessCheck_empty (st : LogState) : steplessCheck "" st = st := by
  unfold steplessCheck
  have hm : matchStepless "" = none := rfl
  rw [hm]
  split <;> rfl

/-- The master scan lemma: a successful preamble pass increments the run
counter once per encountered `.step` line and extends each step-set entry by
exactly the values those lines carry for it, in file order. -/
theorem parsePre_steps (rm : Bool) :
    ∀ (fuel : Nat) (lines : List String) (st st' : LogState),
      lines.length ≤ fuel → parsePre rm fuel lines st = .ok st' →
      st'.step_count = st.step_count + (stepLinesEnc fuel lines).length ∧
      ∀ p, dictGet? st'.stepset p =
        updVals (dictGet? st.stepset p) (encVals p fuel lines) := by
  intro fuel
  induction fuel with
  | zero =>
      intro lines st st' hf h
      have hnil : lines = [] := List.eq_nil_of_length_eq_zero (Nat.le_zero.mp hf)
      subst hnil
      simp only [parsePre, Except.ok.injEq] at h
      subst h
      simp [stepLinesEnc, encVals, updVals]
  | succ fuel ih =>
      intro lines st st' hf h
      cases lines with
      | nil =>
          simp only [parsePre, Except.ok.injEq] at h
          subst h
          simp [stepLinesEnc, encVals, updVals]
      | cons line rest =>
          have hr : rest.length ≤ fuel := by
            simpa using Nat.le_of_succ_le_succ hf
          simp only [parsePre] at h
          by_cases hemp : line = ""
          · subst hemp
            rw [if_pos rfl] at h
            simp only [Except.ok.injEq] at h
            subst h
            constructor
            · simp [stepLinesEnc]
            · intro p
              simp [encVals, stepLinesEnc, updVals]
          · rw [if_neg hemp] at h
            by_cases hnp : pyStartsWith line "N-Period" = true
            · simp only [hnp, if_true] at h
              split at h
              · exact absurd h (by simp)
              case _ signal n_periods dc phd thd harmonics rest' hfp =>
                rw [steplessCheck_empty] at h
                have hr' : rest'.length ≤ fuel :=
                  le_trans (fourierParse_rest_le _ _ _ _ hfp) hr
                obtain ⟨ih1, ih2⟩ := ih rest' _ st' hr' h
                have hsl : stepLinesEnc (fuel + 1) (line :: rest) =
                    stepLinesEnc fuel rest' := by
                  simp [stepLinesEnc, hemp, hnp, hfp]
                constructor
                · rw [hsl, ih1]
                · intro p
                  rw [ih2 p]
                  simp only [encVals, hsl]
            · rw [if_neg hnp] at h
              by_cases hst : pyStartsWith line ".step" = true
              · simp only [hst, if_true] at h
                split at h
                · exact absurd h (by simp)
                case _ st1 hpl =>
                  rw [steplessCheck_empty] at h
                  obtain ⟨hc, hs⟩ := parseStepLine_spec line st st1 hpl
                  obtain ⟨ih1, ih2⟩ := ih rest st1 st' hr h
                  have hsl : stepLinesEnc (fuel + 1) (line :: rest) =
                      line :: stepLinesEnc fuel rest := by
                    simp [stepLinesEnc, hemp, hnp, hst]
                  constructor
                  · rw [hsl, ih1, hc]
                    simp [Nat.add_comm, Nat.add_assoc, Nat.add_left_comm]
                  · intro p
                    rw [ih2 p, hs p]
                    simp only [encVals, hsl, List.map_cons, List.flatten_cons]
                    exact updVals_append _ _ _
              · rw [if_neg hst] at h
                by_cases hms : pyStartsWith line "Measurement:" = true
                · simp only [hms, if_true] at h
                  have hsl : stepLinesEnc (fuel + 1) (line :: rest) = [] := by
                    simp [stepLinesEnc, hemp, hnp, hst, hms]
                  cases rm with
                  | true =>
                      rw [if_pos rfl] at h
                      obtain ⟨h1, h2⟩ := parseMeas_fields rest line ⟨none, [], []⟩ st st' h
                      constructor
                      · rw [hsl, h1]; simp
                      · intro p
                        rw [h2]
                        simp [encVals, hsl, updVals]
                  | false =>
                      rw [if_neg (by simp)] at h
                      simp only [Except.ok.injEq] at h
                      subst h
                      constructor
                      · rw [hsl]; simp
                      · intro p; simp [encVals, hsl, updVals]
                · rw [if_neg hms] at h
                  obtain ⟨ih1, ih2⟩ := ih rest _ st' hr h
                  have hfields := steplessCheck_fields line st
                  have hsl : stepLinesEnc (fuel + 1) (line :: rest) =
                      stepLinesEnc fuel rest := by
                    simp [stepLinesEnc, hemp, hnp, hst, hms]
                  constructor
                  · rw [hsl, ih1, hfields.1]
                  · intro p
                    rw [ih2 p, hfields.2]
                    simp only [encVals, hsl]

theorem flatten_length_of_singletons {α β : Type} (f : α → List β) :
    ∀ l : List α, (∀ x ∈ l, (f x).length = 1) →
      ((l.map f).flatten).length = l.length := by
  intro l
  induction l with
  | nil => simp
  | cons x xs ih =>
      intro h
      simp only [List.map_cons, List.flatten_cons, List.length_append,
        List.length_cons, h x (List.mem_cons_self x xs),
        ih (fun y hy => h y (List.mem_cons_of_mem x hy))]
      omega

/-- C3 (amended): after a successful parse, the run counter equals the number
of `.step` lines the preamble scan encountered before the Measurement
section, and for every parameter name that appears EXACTLY ONCE as a
name=value token on every such line, the step-set entry holds exactly the
values of those tokens in file order — in particular its length is the run
counter.  (The claim as stated — mere appearance on every line — fails when a
parameter appears twice on one line; see the counterexample.) -/
theorem parseLog_step_invariant (lines : List String) (st : LogState)
    (h : parseLog lines = .ok st) (p : String)
    (hone : ∀ l ∈ stepLinesEnc lines.length lines, (lineVals p l).length = 1)
    (hne : stepLinesEnc lines.length lines ≠ []) :
    st.step_count = (stepLinesEnc lines.length lines).length ∧
    dictGet? st.stepset p = some (encVals p lines.length lines) ∧
    (encVals p lines.length lines).length = st.step_count := by
  obtain ⟨h1, h2⟩ :=
    parsePre_steps true lines.length lines initLogState st (Nat.le_refl _) h
  have hlen : (encVals p lines.length lines).length =
      (stepLinesEnc lines.length lines).length :=
    flatten_length_of_singletons _ _ hone
  have henc : encVals p lines.length lines ≠ [] := by
    intro hcon
    rw [hcon] at hlen
    exact hne (List.eq_nil_of_length_eq_zero hlen.symm)
  refine ⟨by simpa [initLogState] using h1, ?_, ?_⟩
  · have h2p := h2 p
    simpa [initLogState, dictGet?, updVals, henc] using h2p
  · rw [hlen, h1]
    simp [initLogState]

/-- C3 witness: the amended theorem applied to a two-step log. -/
theorem parseLog_step_invariant_witness :
    ∃ st : LogState, parseLog [".step x=1\n", ".step x=2\n"] = .ok st ∧
      st.step_count = 2 ∧ dictGet? st.stepset "x" = some [Value.int 1, Value.int 2] := by
  have hp := parseLog_step_invariant [".step x=1\n", ".step x=2\n"]
    ⟨2, [("x", [Value.int 1, Value.int 2])], [], 0, []⟩ (by decide) "x"
    (by decide) (by decide)
  exact ⟨⟨2, [("x", [Value.int 1, Value.int 2])], [], 0, []⟩, by decide,
    by rw [hp.1]; decide, by rw [hp.2.1]; decide⟩

/-- C3 counterexample: on the log whose single `.step` line carries the
parameter twice (`.step x=1 x=2`), the parse succeeds with run counter 1 but
a step-set entry of length 2, refuting the claim as stated (`x` does appear
as a name=value token on every `.step` line of this file). -/
theorem parseLog_stepset_length_cex :
    parseLog [".step x=1 x=2\n"] =
      .ok ⟨1, [("x", [.int 1, .int 2])], [], 0, []⟩ ∧
    ((dictGet? [("x", [Value.int 1, Value.int 2])] "x").getD []).length = 2 ∧
    (2 : Nat) ≠ 1 := by decide

/-! ## Claim C6 -/

/-- A "Total Harmonic …" or "Partial Harmonic …" distortion-figure line. -/
def isDistortionLine (t : String) : Bool :=
  pyStartsWith (stripRN t) "Total Harmonic" || pyStartsWith (stripRN t) "Partial Harmonic"

/-- The harmonic record a table line produces, if any: distortion lines
produce none, every other line parses via `HarmonicData.from_line`. -/
def harmOf (t : String) : Option HarmonicData :=
  if isDistortionLine t then none else (HarmonicData.from_line (stripRN t)).toOption

/-- The table loop handles this line without raising. -/
def tableLineOk (t : String) : Bool :=
  if isDistortionLine t then
    match searchDec (stripRN t) with
    | none => false
    | some s => (pyFloat? s).isSome
  else (HarmonicData.from_line (stripRN t)).isOk

theorem readTable_harmonics :
    ∀ (ts : List String) (rest : List String) (b : String) (phd thd : Option Dec)
      (acc : List HarmonicData),
      stripRN b = "" →
      (∀ t ∈ ts, stripRN t ≠ "" ∧ tableLineOk t = true) →
      ∃ phd' thd',
        readTable (ts ++ b :: rest) phd thd acc =
          .ok (phd', thd', acc ++ ts.filterMap harmOf, rest) := by
  intro ts
  induction ts with
  | nil =>
      intro rest b phd thd acc hb _
      refine ⟨phd, thd, ?_⟩
      simp only [List.nil_append, readTable, hb]
      have h1 : pyStartsWith "" "Total Harmonic" = false := rfl
      have h2 : pyStartsWith "" "Partial Harmonic" = false := rfl
      simp [h1, h2]
  | cons t ts ih =>
      intro rest b phd thd acc hb hts
      obtain ⟨hne, hok⟩ := hts t (List.mem_cons_self t ts)
      have hrest : ∀ x ∈ ts, stripRN x ≠ "" ∧ tableLineOk x = true :=
        fun x hx => hts x (List.mem_cons_of_mem t hx)
      simp only [List.cons_append, readTable]
      by_cases htot : pyStartsWith (stripRN t) "Total Harmonic" = true
      · have hdist : isDistortionLine t = true := by simp [isDistortionLine, htot]
        have harm : harmOf t = none := by simp [harmOf, hdist]
        simp only [tableLineOk, hdist, if_true] at hok
        rw [htot, if_pos rfl]
        cases hsd : searchDec (stripRN t) with
        | none => simp [hsd] at hok
        | some s =>
            simp only [hsd] at hok ⊢
            cases hf : pyFloat? s with
            | none => simp [hf] at hok
            | some v =>
                simp only [hf]
                simpa [List.filterMap_cons, harm] using ih rest b phd (some v) acc hb hrest
      · by_cases hpar : pyStartsWith (stripRN t) "Partial Harmonic" = true
        · have hdist : isDistortionLine t = true := by simp [isDistortionLine, hpar]
          have harm : harmOf t = none := by simp [harmOf, hdist]
          simp only [tableLineOk, hdist, if_true] at hok
          rw [if_neg (by simp [htot]), hpar, if_pos rfl]
          cases hsd : searchDec (stripRN t) with
          | none => simp [hsd] at hok
          | some s =>
              simp only [hsd] at hok ⊢
              cases hf : pyFloat? s with
              | none => simp [hf] at hok
              | some v =>
                  simp only [hf]
                  simpa [List.filterMap_cons, harm] using ih rest b (some v) thd acc hb hrest
        · have hdist : isDistortionLine t = false := by
            simp [isDistortionLine, htot, hpar]
          simp only [tableLineOk, hdist, Bool.false_eq_true, if_false] at hok
          rw [if_neg (by simp [htot]), if_neg (by simp [hpar]), if_neg hne]
          cases hfl : HarmonicData.from_line (stripRN t) with
          | error e => simp [hfl, Except.isOk, Except.toBool] at hok
          | ok hrec =>
              simp only [hfl]
              have harm : harmOf t = some hrec := by
                simp [harmOf, hdist, hfl, Except.toOption]
              simpa [List.filterMap_cons, harm, List.append_assoc] using
                ih rest b phd thd (acc ++ [hrec]) hb hrest

theorem filterMap_harmOf_length :
    ∀ ts : List String, (∀ t ∈ ts, tableLineOk t = true) →
      (ts.filterMap harmOf).length =
        (ts.filter (fun t => !isDistortionLine t)).length := by
  intro ts
  induction ts with
  | nil => simp
  | cons t ts ih =>
      intro h
      have ht := h t (List.mem_cons_self t ts)
      have hrest := fun x hx => h x (List.mem_cons_of_mem t hx)
      by_cases hdist : isDistortionLine t = true
      · have harm : harmOf t = none := by simp [harmOf, hdist]
        simp [List.filterMap_cons, harm, List.filter_cons, hdist, ih hrest]
      · simp only [tableLineOk, Bool.not_eq_true] at ht hdist
        rw [hdist] at ht
        simp only [Bool.false_eq_true, if_false] at ht
        cases hfl : HarmonicData.from_line (stripRN t) with
        | error e => rw [hfl] at ht; simp [Except.isOk, Except.toBool] at ht
        | ok hrec =>
            have harm : harmOf t = some hrec := by
              simp [harmOf, hdist, hfl, Except.toOption]
            simp [List.filterMap_cons, harm, List.filter_cons, hdist, ih hrest]

/-- C6 (confirmed): for a Fourier block whose lines all process successfully,
the harmonics list of the resulting record is exactly one `HarmonicData` per
non-blank table line that is neither a "Total Harmonic" nor a
"Partial Harmonic" line, in file order, and its length is the number of such
lines between the two header lines and the terminating blank line. -/
theorem fourierParse_harmonics (line sline dcline bl hl1 hl2 b : String)
    (ts rest : List String)
    (hnp : (pySplitOn (stripRN line) "=").getLastD "" = "all" ∨
      (pyFloat? ((pySplitOn (stripRN line) "=").getLastD "")).isSome = true)
    (hdc : (pyFloat? ((pySplitOn (stripRN dcline) ":").getLastD "")).isSome = true)
    (hb : stripRN b = "")
    (hts : ∀ t ∈ ts, stripRN t ≠ "" ∧ tableLineOk t = true) :
    ∃ n_periods dc phd thd,
      fourierParse line (sline :: dcline :: bl :: hl1 :: hl2 :: (ts ++ b :: rest)) =
        .ok (((pySplitOn (stripRN sline) " of ").getLastD "", n_periods, dc, phd, thd,
          ts.filterMap harmOf), rest) ∧
      (ts.filterMap harmOf).length =
        (ts.filter (fun t => !isDistortionLine t)).length := by
  have hlen := filterMap_harmOf_length ts (fun t htm => (hts t htm).2)
  have hdrop : (sline :: dcline :: bl :: hl1 :: hl2 :: (ts ++ b :: rest)).drop 5 =
      ts ++ b :: rest := rfl
  have hhead : (sline :: dcline :: bl :: hl1 :: hl2 :: (ts ++ b :: rest)).headD "" =
      sline := rfl
  have hhead2 :
      ((sline :: dcline :: bl :: hl1 :: hl2 :: (ts ++ b :: rest)).drop 1).headD "" =
      dcline := rfl
  obtain ⟨dcv, hdcv⟩ := Option.isSome_iff_exists.mp hdc
  obtain ⟨phd', thd', hrt⟩ :=
    readTable_harmonics ts rest b none none [] hb hts
  simp only [fourierParse, hdrop, hhead, hhead2]
  cases hnp with
  | inl hall =>
      refine ⟨Dec.ofInt (-1), dcv, phd', thd', ?_, hlen⟩
      rw [if_pos hall]
      simp only [pyFloatE, hdcv, hrt, List.nil_append]
  | inr hsome =>
      obtain ⟨npv, hnpv⟩ := Option.isSome_iff_exists.mp hsome
      refine ⟨npv, dcv, phd', thd', ?_, hlen⟩
      by_cases hall : (pySplitOn (stripRN line) "=").getLastD "" = "all"
      · -- when the literal is "all", pyFloat? of it cannot succeed
        rw [hall] at hnpv
        have hnone : pyFloat? "all" = none := by decide
        rw [hnone] at hnpv
        simp at hnpv
      · rw [if_neg hall]
        simp only [pyFloatE, hnpv, hdcv, hrt, List.nil_append]

/-- C6 witness: the theorem applied to a concrete block with one harmonic
line and one "Total Harmonic" line. -/
theorem fourierParse_harmonics_witness :
    ∃ n_periods dc phd thd,
      fourierParse "N-Periods=1\n"
        ("Fourier components of V(out)\n" :: "DC component:0.5\n" :: "\n" ::
          "ha\n" :: "hb\n" ::
          (["1 1000 1 1 0 0\n", "Total Harmonic Distortion: 1.234%\n"] ++
            "\n" :: ["tail\n"])) =
        .ok (((pySplitOn (stripRN "Fourier components of V(out)\n") " of ").getLastD "",
          n_periods, dc, phd, thd,
          ["1 1000 1 1 0 0\n", "Total Harmonic Distortion: 1.234%\n"].filterMap harmOf),
          ["tail\n"]) ∧
      (["1 1000 1 1 0 0\n",
        "Total Harmonic Distortion: 1.234%\n"].filterMap harmOf).length =
        (["1 1000 1 1 0 0\n", "Total Harmonic Distortion: 1.234%\n"].filter
          (fun t => !isDistortionLine t)).length :=
  fourierParse_harmonics "N-Periods=1\n" "Fourier components of V(out)\n"
    "DC component:0.5\n" "\n" "ha\n" "hb\n" "\n"
    ["1 1000 1 1 0 0\n", "Total Harmonic Distortion: 1.234%\n"] ["tail\n"]
    (by right; decide) (by decide) (by decide) (by decide)

/-! ## Claim C7 -/

theorem natDigitsAux_digits :
    ∀ (fuel n : Nat), ∀ c ∈ natDigitsAux fuel n, c.isDigit = true := by
  intro fuel
  induction fuel with
  | zero => intro n c hc; simp [natDigitsAux] at hc
  | succ fuel ih =>
      intro n c hc
      simp only [natDigitsAux] at hc
      split at hc
      case isTrue hn =>
        simp only [List.mem_singleton] at hc
        subst hc
        interval_cases n <;> decide
      case isFalse hn =>
        rw [List.mem_append] at hc
        cases hc with
        | inl hc => exact ih _ c hc
        | inr hc =>
            simp only [List.mem_singleton] at hc
            subst hc
            have hm : n % 10 < 10 := Nat.mod_lt n (by omega)
            set k := n % 10 with hk
            interval_cases k <;> decide

theorem natDigits_ne_nil (n : Nat) : natDigits n ≠ [] := by
  unfold natDigits natDigitsAux
  split <;> simp

theorem showInt_head (i : Int) :
    ∃ c cs, (showInt i).data = c :: cs ∧ (c.isDigit = true ∨ c = '-') := by
  unfold showInt
  split
  · refine ⟨'-', (showNat i.natAbs).data, ?_, Or.inr rfl⟩
    rw [String.data_append]
    rfl
  · cases hnd : natDigits i.natAbs with
    | nil => exact absurd hnd (natDigits_ne_nil _)
    | cons c cs =>
        refine ⟨c, cs, by simp [showNat, hnd], Or.inl ?_⟩
        exact natDigitsAux_digits _ _ c (by rw [show natDigitsAux (i.natAbs + 1) i.natAbs =
          natDigits i.natAbs from rfl, hnd]; exact List.mem_cons_self c cs)

/-- A rendered number is never the literal `"all"`: it starts with a digit or
a minus sign. -/
theorem showDec_ne_all (d : Dec) : showDec d ≠ "all" := by
  intro hcon
  have hdata : (showDec d).data = "all".data := by rw [hcon]
  unfold showDec at hdata
  obtain ⟨c, cs, hc, hd⟩ := showInt_head d.num
  have hca : c = 'a' := by
    split at hdata
    · rw [hc] at hdata
      simp only [show "all".data = ['a', 'l', 'l'] from rfl, List.cons.injEq] at hdata
      exact hdata.1
    · rw [String.data_append, String.data_append, hc] at hdata
      simp only [List.cons_append, List.append_assoc,
        show "all".data = ['a', 'l', 'l'] from rfl, List.cons.injEq] at hdata
      exact hdata.1
  subst hca
  cases hd with
  | inl h => exact absurd h (by decide)
  | inr h => exact absurd h (by decide)

/-- C7 (amended): in the summary table of the Fourier companion file, the
N-periods cell is the literal `"all"` exactly when `n_periods < 1` in the
sweep case, but exactly when `n_periods == -1` in the no-sweep case — the two
branches of `export_data` use different tests, so with a sweep a parsed
period count strictly below one (e.g. 0) also prints `"all"` (see the
counterexample). -/
theorem summaryRow_nperiods_cell (pre : List String) (signal : String) (a : FourierData) :
    (∀ r, steppedSummaryRow pre signal a = .ok r →
      (r[pre.length + 1]? = some "all" ↔ Dec.lt a.n_periods (Dec.ofInt 1) = true)) ∧
    (∀ r, unsteppedSummaryRow signal a = .ok r →
      (r[1]? = some "all" ↔ Dec.veq a.n_periods (Dec.ofInt (-1)) = true)) := by
  constructor
  · intro r hr
    simp only [steppedSummaryRow, bind, Except.bind] at hr
    split at hr
    · exact absurd hr (by simp)
    case _ fund hf =>
      simp only [pure, Except.pure, Except.ok.injEq] at hr
      subst hr
      rw [List.getElem?_append_right (by omega)]
      simp only [Nat.add_sub_cancel_left]
      by_cases hlt : Dec.lt a.n_periods (Dec.ofInt 1) = true
      · simp [hlt]
      · simp only [hlt, Bool.false_eq_true, if_false, iff_false]
        simp only [List.getElem?_cons_succ, List.getElem?_cons_zero]
        intro hcon
        rw [Option.some_inj] at hcon
        exact showDec_ne_all a.n_periods (by simpa [hlt] using hcon)
  · intro r hr
    simp only [unsteppedSummaryRow, bind, Except.bind] at hr
    split at hr
    · exact absurd hr (by simp)
    case _ fund hf =>
      simp only [pure, Except.pure, Except.ok.injEq] at hr
      subst hr
      by_cases heq : Dec.veq a.n_periods (Dec.ofInt (-1)) = true
      · simp [heq]
      · simp only [heq, Bool.false_eq_true, if_false, iff_false]
        simp only [List.getElem?_cons_succ, List.getElem?_cons_zero]
        intro hcon
        rw [Option.some_inj] at hcon
        exact showDec_ne_all a.n_periods (by simpa [heq] using hcon)

/-- C7 witness: the amended theorem applied to a concrete analysis with
period count 0 under a sweep. -/
theorem summaryRow_nperiods_cell_witness :
    (["1", "s", "all", "5/10", "1000", "1", "None", "None"][(["1"] : List String).length + 1]? =
        some "all" ↔
      Dec.lt (⟨0, 1⟩ : Dec) (Dec.ofInt 1) = true) :=
  (summaryRow_nperiods_cell ["1"] "s"
      { signal := "s", n_periods := ⟨0, 1⟩, dc_component := ⟨5, 10⟩, phd := none,
        thd := none, harmonics := [exampleHarm], step := 0 }).1
    ["1", "s", "all", "5/10", "1000", "1", "None", "None"] (by decide)

/-- C7 counterexample: a swept log whose Fourier block declares
`N-Periods=0` parses to period count 0 (not the -1 sentinel), yet the summary
row prints `"all"` in the N-periods column, refuting "contains the literal
all exactly when the period count is the -1 sentinel — both when a sweep is
present and when it is not". -/
theorem fourierSummary_nperiods_cex :
    parseLog [".step x=1\n", "N-Periods=0\n", "Fourier components of V(out)\n",
        "DC component:0.5\n", "\n", "ha\n", "hb\n", "1 1000 1 1 0 0\n", "\n"] =
      .ok ⟨1, [("x", [.int 1])], [], 0,
        [("V(out)",
          [{ signal := "V(out)", n_periods := ⟨0, 1⟩, dc_component := ⟨5, 10⟩,
             phd := none, thd := none, harmonics := [exampleHarm], step := 0 }])]⟩ ∧
    fourierSummary
      ⟨1, [("x", [.int 1])], [], 0,
        [("V(out)",
          [{ signal := "V(out)", n_periods := ⟨0, 1⟩, dc_component := ⟨5, 10⟩,
             phd := none, thd := none, harmonics := [exampleHarm], step := 0 }])]⟩ =
      .ok [["1", "V(out)", "all", "5/10", "1000", "1", "None", "None"]] ∧
    Dec.veq (⟨0, 1⟩ : Dec) (Dec.ofInt (-1)) = false := by decide

/-! ## Claim C10 -/

theorem unsteppedRowsStep_ok (signal : String) (rows : List (List String))
    (a : FourierData) (rows1 : List (List String))
    (h : unsteppedRowsStep signal rows a = .ok rows1) :
    (a.fundamental).isOk = true := by
  cases hf : a.fundamental with
  | error e =>
      simp [unsteppedRowsStep, unsteppedSummaryRow, bind, Except.bind, hf] at h
  | ok v => simp [Except.isOk, Except.toBool, hf]

theorem unsteppedFoldInner_ok (signal : String) :
    ∀ (as : List FourierData) (rows rows' : List (List String)),
      as.foldlM (unsteppedRowsStep signal) rows = .ok rows' →
      ∀ a ∈ as, (a.fundamental).isOk = true := by
  intro as
  induction as with
  | nil => intro rows rows' _ a ha; simp at ha
  | cons a as ih =>
      intro rows rows' h b hb
      rw [List.foldlM_cons] at h
      simp only [bind, Except.bind] at h
      split at h
      · exact absurd h (by simp)
      case _ rows1 hstep =>
        rcases List.mem_cons.mp hb with hba | hbs
        · subst hba
          exact unsteppedRowsStep_ok signal rows b rows1 hstep
        · exact ih rows1 rows' h b hbs

theorem unsteppedFoldOuter_ok :
    ∀ (l : List (String × List FourierData)) (rows rows' : List (List String)),
      l.foldlM unsteppedSignalRows rows = .ok rows' →
      ∀ sa ∈ l, ∀ a ∈ sa.2, (a.fundamental).isOk = true := by
  intro l
  induction l with
  | nil => intro rows rows' _ sa hsa; simp at hsa
  | cons sa0 l ih =>
      intro rows rows' h sa hsa a ha
      rw [List.foldlM_cons] at h
      simp only [bind, Except.bind] at h
      split at h
      · exact absurd h (by simp)
      case _ rows1 hstep =>
        rcases List.mem_cons.mp hsa with hs0 | hsl
        · subst hs0
          exact unsteppedFoldInner_ok sa.1 sa.2 rows rows1 hstep a ha
        · exact ih rows1 rows' h sa hsl a ha

/-- C10 (amended): the fundamental-frequency accessor raises `IndexError`
exactly on an empty harmonics list; and when there is NO sweep, a parse
result containing an analysis with an empty harmonics list makes the
summary-table emission fail.  (With a sweep the emission only fails when the
analysis's owning run index lies in the emitted range; an empty-harmonics
block recorded before any `.step` line carries run index -1 and is silently
skipped — see the counterexample.) -/
theorem fundamental_empty_summary (st : LogState) (h0 : st.step_count = 0)
    (signal : String) (as : List FourierData) (a : FourierData)
    (hin : (signal, as) ∈ st.fourier) (ha : a ∈ as) (hemp : a.harmonics = []) :
    a.fundamental = .error "IndexError" ∧ ∀ rows, fourierSummary st ≠ .ok rows := by
  have hfund : a.fundamental = .error "IndexError" := by
    simp [FourierData.fundamental, hemp]
  refine ⟨hfund, fun rows hcon => ?_⟩
  unfold fourierSummary at hcon
  rw [h0] at hcon
  simp only [gt_iff_lt, Nat.lt_irrefl, if_false] at hcon
  have hok := unsteppedFoldOuter_ok st.fourier [] rows hcon (signal, as) hin a ha
  rw [hfund] at hok
  simp [Except.isOk, Except.toBool] at hok

/-- C10 witness: the amended theorem applied to a concrete stepless parse
state holding one empty-harmonics analysis. -/
theorem fundamental_empty_summary_witness :
    (FourierData.fundamental
        { signal := "V(out)", n_periods := ⟨1, 1⟩, dc_component := ⟨5, 10⟩,
          phd := none, thd := none, harmonics := [], step := -1 }) =
      .error "IndexError" ∧
    fourierSummary
        ⟨0, [], [], 0,
          [("V(out)",
            [{ signal := "V(out)", n_periods := ⟨1, 1⟩, dc_component := ⟨5, 10⟩,
               phd := none, thd := none, harmonics := [], step := -1 }])]⟩ ≠
      .ok [] := by
  have hp := fundamental_empty_summary
    ⟨0, [], [], 0,
      [("V(out)",
        [{ signal := "V(out)", n_periods := ⟨1, 1⟩, dc_component := ⟨5, 10⟩,
           phd := none, thd := none, harmonics := [], step := -1 }])]⟩
    rfl "V(out)"
    [{ signal := "V(out)", n_periods := ⟨1, 1⟩, dc_component := ⟨5, 10⟩,
       phd := none, thd := none, harmonics := [], step := -1 }]
    { signal := "V(out)", n_periods := ⟨1, 1⟩, dc_component := ⟨5, 10⟩,
      phd := none, thd := none, harmonics := [], step := -1 }
    (by decide) (by decide) rfl
  exact ⟨hp.1, hp.2 []⟩

/-- C10 counterexample: a log whose empty-harmonics Fourier block precedes the
only `.step` line parses to an analysis with owning run -1; with the sweep
present, the summary loop matches no run, raises nothing, and writes an empty
summary — refuting "for a parse result containing a Fourier block whose table
had zero harmonic lines, the summary-table emission raises an index error
instead of writing the file". -/
theorem fourierSummary_empty_block_cex :
    parseLog ["N-Periods=1\n", "Fourier components of V(out)\n",
        "DC component:0.5\n", "\n", "ha\n", "hb\n", "\n", ".step x=1\n"] =
      .ok ⟨1, [("x", [.int 1])], [], 0,
        [("V(out)",
          [{ signal := "V(out)", n_periods := ⟨1, 1⟩, dc_component := ⟨5, 10⟩,
             phd := none, thd := none, harmonics := [], step := -1 }])]⟩ ∧
    (FourierData.fundamental
        { signal := "V(out)", n_periods := ⟨1, 1⟩, dc_component := ⟨5, 10⟩,
          phd := none, thd := none, harmonics := [], step := -1 }) =
      .error "IndexError" ∧
    fourierSummary
      ⟨1, [("x", [.int 1])], [], 0,
        [("V(out)",
          [{ signal := "V(out)", n_periods := ⟨1, 1⟩, dc_component := ⟨5, 10⟩,
             phd := none, thd := none, harmonics := [], step := -1 }])]⟩ =
      .ok [] := by decide

/-! ## Claim C8 -/

theorem pyRfind_eq_neg_one_of_not_mem (c : Char) :
    ∀ cs : List Char, c ∉ cs → pyRfind c cs = -1 := by
  intro cs
  induction cs with
  | nil => intro _; rfl
  | cons x xs ih =>
      intro h
      have hx : x ≠ c := fun hh => h (hh ▸ List.mem_cons_self x xs)
      have hxs : c ∉ xs := fun hh => h (List.mem_cons_of_mem x hh)
      simp [pyRfind, ih hxs, hx]

theorem pyRfind_nonneg_or (c : Char) :
    ∀ cs : List Char, pyRfind c cs ≥ 0 ∨ pyRfind c cs = -1 := by
  intro cs
  induction cs with
  | nil => right; rfl
  | cons x xs ih =>
      simp only [pyRfind]
      rcases ih with h | h
      · left; rw [if_pos h]; omega
      · rw [h]
        by_cases hx : x = c
        · left; simp [hx]
        · right; simp [hx]

theorem pyRfind_append (c : Char) (l1 l2 : List Char) :
    pyRfind c (l1 ++ l2) =
      if pyRfind c l2 ≥ 0 then l1.length + pyRfind c l2 else pyRfind c l1 := by
  induction l1 with
  | nil =>
      rcases pyRfind_nonneg_or c l2 with h | h
      · simp [h]
      · simp [h, pyRfind]
  | cons x l1 ih =>
      have hunf : pyRfind c (x :: (l1 ++ l2)) =
          if pyRfind c (l1 ++ l2) ≥ 0 then pyRfind c (l1 ++ l2) + 1
          else if x = c then 0 else -1 := rfl
      have hunf1 : pyRfind c (x :: l1) =
          if pyRfind c l1 ≥ 0 then pyRfind c l1 + 1
          else if x = c then 0 else -1 := rfl
      rcases pyRfind_nonneg_or c l2 with h2 | h2
      · have hr : pyRfind c (l1 ++ l2) = l1.length + pyRfind c l2 := by
          rw [ih, if_pos h2]
        rw [List.cons_append, hunf, hr, if_pos (by omega), if_pos h2]
        simp only [List.length_cons]
        push_cast
        omega
      · have hneg : ¬ pyRfind c l2 ≥ 0 := by rw [h2]; decide
        have hr : pyRfind c (l1 ++ l2) = pyRfind c l1 := by
          rw [ih, if_neg hneg]
        rw [List.cons_append, hunf, hr, if_neg hneg, hunf1]

/-- C8 (amended): `export_data` derives the companion name as the original
stem plus `"_fourier.txt"` — the literal `.txt` extension, NOT the original
extension-bearing suffix: for a slash-free file name whose stem has a
non-dot character and whose extension carries no further dot, the name is
`stem ++ "_fourier.txt"` whatever the extension was. -/
theorem fourierExportName_spec (stem ext : String)
    (hslash : '/' ∉ stem.data) (hdot_ext : '.' ∉ ext.data) (hslash_ext : '/' ∉ ext.data)
    (hnd : ∃ c ∈ stem.data, c ≠ '.') :
    fourierExportName (stem ++ "." ++ ext) = stem ++ "_fourier.txt" := by
  obtain ⟨sd⟩ := stem
  obtain ⟨ed⟩ := ext
  have hdotchar : ".".data = ['.'] := rfl
  have hdata : (String.mk sd ++ "." ++ String.mk ed).data = sd ++ '.' :: ed := by
    rw [String.data_append, String.data_append, hdotchar]
    simp [List.append_assoc]
  have hdot2 : pyRfind '.' ('.' :: ed) = 0 := by
    simp [pyRfind, pyRfind_eq_neg_one_of_not_mem '.' ed hdot_ext]
  have hdot : pyRfind '.' (sd ++ '.' :: ed) = sd.length := by
    rw [pyRfind_append, hdot2]
    simp
  have hsl : pyRfind '/' (sd ++ '.' :: ed) = -1 := by
    refine pyRfind_eq_neg_one_of_not_mem '/' _ ?_
    intro hmem
    rcases List.mem_append.mp hmem with hm | hm
    · exact hslash hm
    · rcases List.mem_cons.mp hm with hm | hm
      · exact absurd hm (by decide)
      · exact hslash_ext hm
  have hany : sd.any (fun ch => ch ≠ '.') = true := by
    obtain ⟨c, hc, hcd⟩ := hnd
    exact List.any_eq_true.mpr ⟨c, hc, by simp [hcd]⟩
  simp only [fourierExportName, pySplitext, hdata, hdot, hsl]
  rw [if_pos (show (sd.length : Int) > -1 by omega)]
  have htoNat : ((-1 : Int) + 1).toNat = 0 := rfl
  rw [htoNat]
  have hslice : (((sd ++ '.' :: ed).drop 0).take ((sd.length : Int).toNat - 0)) = sd := by
    simp [List.take_left]
  rw [hslice, if_pos hany]
  have htake : (sd ++ '.' :: ed).take ((sd.length : Int).toNat) = sd := by
    simp [List.take_left]
  rw [htake]

/-- C8 witness: the amended theorem applied to the claim's own example
name. -/
theorem fourierExportName_spec_witness :
    fourierExportName ("out" ++ "." ++ "tsv") = "out" ++ "_fourier.txt" :=
  fourierExportName_spec "out" "tsv" (by decide) (by decide) (by decide)
    ⟨'o', by decide, by decide⟩

/-- C8 counterexample: exporting to "out.tsv" yields "out_fourier.txt", not
the claimed "out_fourier.tsv" — the code appends the literal "_fourier.txt"
to the stem (ltsteps.py line 462). -/
theorem fourierExportName_cex :
    fourierExportName "out.tsv" = "out_fourier.txt" ∧
    "out_fourier.txt" ≠ "out_fourier.tsv" := by decide

/-! ## Claims C4 and C9 — the export reformatter -/

theorem stripPrefixL_some :
    ∀ (pat cs r : List Char), stripPrefixL pat cs = some r → cs = pat ++ r := by
  intro pat
  induction pat with
  | nil =>
      intro cs r h
      simp only [stripPrefixL, Option.some.injEq] at h
      simp [h]
  | cons p ps ih =>
      intro cs r h
      cases cs with
      | nil => simp [stripPrefixL] at h
      | cons c cs =>
          simp only [stripPrefixL] at h
          split at h
          case isTrue hpc =>
            subst hpc
            simp [ih cs r h]
          case isFalse hpc => simp at h

/-- A line the marker regex matches does start with the literal the
reformatter's branch tests for. -/
theorem stepInfoMatch_startsWith (l : String) (sr : String × String)
    (h : stepInfoMatch l = some sr) :
    pyStartsWith l "Step Information:" = true := by
  simp only [stepInfoMatch] at h
  cases hs : stripPrefixL "Step Information: ".data l.data with
  | none => rw [hs] at h; simp at h
  | some r =>
      have hl : l.data = "Step Information: ".data ++ r := stripPrefixL_some _ _ _ hs
      have hsp : "Step Information: ".data = "Step Information:".data ++ [' '] := rfl
      simp only [pyStartsWith]
      rw [hl, hsp, List.append_assoc]
      exact List.isPrefixOf_iff_prefix.mpr ⟨' ' :: r, rfl⟩

/-- The run-number group of a matched marker line, as the loop keeps it. -/
def mRun (l : String) : String := ((stepInfoMatch l).getD ("", "")).2

/-- The tab-joined parameter values of a matched marker line. -/
def mPV (l : String) : String :=
  match stepInfoMatch l with
  | some sr => (pvOfStep sr.1).toOption.getD ""
  | none => ""

/-- The tab-joined parameter names of a matched marker line. -/
def mPH (l : String) : String :=
  match stepInfoMatch l with
  | some sr => phOfStep sr.1
  | none => ""

/-- A step block the reformatter handles completely: its marker matches the
regex, every parameter token has an `=`, and no data row looks like a
marker. -/
def blockOk (b : String × List String) : Bool :=
  match stepInfoMatch b.1 with
  | some sr =>
      (pvOfStep sr.1).isOk && b.2.all (fun d => !(pyStartsWith d "Step Information:"))
  | none => false

theorem reformatLoop_rows (header : String) :
    ∀ (rows tail : List String) (gh : Bool) (run pv : String),
      (∀ d ∈ rows, pyStartsWith d "Step Information:" = false) →
      reformatLoop header (rows ++ tail) gh run pv =
        (reformatLoop header tail gh run pv).map
          (fun out => rows.map (fun d => run ++ "\t" ++ pv ++ "\t" ++ d) ++ out) := by
  intro rows
  induction rows with
  | nil =>
      intro tail gh run pv _
      cases h : reformatLoop header tail gh run pv <;> simp [Except.map, h]
  | cons d rows ih =>
      intro tail gh run pv hd
      have hdm := hd d (List.mem_cons_self d rows)
      have hrest := fun x hx => hd x (List.mem_cons_of_mem d hx)
      simp only [List.cons_append, reformatLoop, hdm, Bool.false_eq_true, if_false]
      have ih' : reformatLoop header (rows.append tail) gh run pv =
          (reformatLoop header tail gh run pv).map
            (fun out => rows.map (fun d => run ++ "\t" ++ pv ++ "\t" ++ d) ++ out) :=
        ih tail gh run pv hrest
      rw [ih']
      cases h : reformatLoop header tail gh run pv <;> simp [Except.map, h]

theorem reformatLoop_blocks (header : String) :
    ∀ (blocks : List (String × List String)) (run pv : String),
      (∀ b ∈ blocks, blockOk b = true) →
      reformatLoop header ((blocks.map (fun b => b.1 :: b.2)).flatten) false run pv =
        .ok ((blocks.map (fun b =>
          b.2.map (fun d => mRun b.1 ++ "\t" ++ mPV b.1 ++ "\t" ++ d))).flatten) := by
  intro blocks
  induction blocks with
  | nil => intro run pv _; rfl
  | cons b bs ih =>
      intro run pv hok
      obtain ⟨mk, rows⟩ := b
      have hb := hok (mk, rows) (List.mem_cons_self _ _)
      have hbs := fun x hx => hok x (List.mem_cons_of_mem _ hx)
      simp only [blockOk] at hb
      cases hsm : stepInfoMatch mk with
      | none => rw [hsm] at hb; simp at hb
      | some sr =>
          rw [hsm] at hb
          simp only [Bool.and_eq_true, List.all_eq_true, Bool.not_eq_true'] at hb
          obtain ⟨hpv, hrows⟩ := hb
          obtain ⟨pv', hpv'⟩ : ∃ x, pvOfStep sr.1 = .ok x := by
            cases hx : pvOfStep sr.1 with
            | error e => rw [hx] at hpv; simp [Except.isOk, Except.toBool] at hpv
            | ok x => exact ⟨x, rfl⟩
          simp only [List.map_cons, List.flatten_cons, List.cons_append, reformatLoop,
            stepInfoMatch_startsWith mk sr hsm, if_pos rfl, hsm, hpv']
          have hrows' : reformatLoop header
              (rows ++ (bs.map (fun b => b.1 :: b.2)).flatten) false sr.2 pv' =
              (reformatLoop header ((bs.map (fun b => b.1 :: b.2)).flatten) false sr.2 pv').map
                (fun out => rows.map (fun d => sr.2 ++ "\t" ++ pv' ++ "\t" ++ d) ++ out) :=
            reformatLoop_rows header rows _ false sr.2 pv' hrows
          have ih' := ih sr.2 pv' hbs
          rw [show rows.append ((bs.map (fun b => b.1 :: b.2)).flatten) =
            rows ++ (bs.map (fun b => b.1 :: b.2)).flatten from rfl, hrows', ih']
          simp [Except.map, mRun, mPV, hsm, hpv', Except.toOption]

theorem blocks_rows_length :
    ∀ (blocks : List (String × List String)) (r : Nat),
      (∀ b ∈ blocks, b.2.length = r) →
      ((blocks.map (fun b =>
        b.2.map (fun d => mRun b.1 ++ "\t" ++ mPV b.1 ++ "\t" ++ d))).flatten).length =
        blocks.length * r := by
  intro blocks
  induction blocks with
  | nil => intro r _; simp
  | cons b bs ih =>
      intro r h
      have hb := h b (List.mem_cons_self _ _)
      have hbs := fun x hx => h x (List.mem_cons_of_mem _ hx)
      simp only [List.map_cons, List.flatten_cons, List.length_append,
        List.length_map, List.length_cons, hb, ih r hbs]
      ring

/-- C4 (confirmed): on a header line followed by N marker-led step blocks of
r rows each (markers matching the pattern, rows not marker-like),
`reformat_LTSpice_export` writes one extended header — "Run", the first
marker's parameter names, the original header — followed by each block's
rows prefixed by the block's run number and tab-joined parameter values, for
a total of 1 + N*r lines. -/
theorem reformat_step_blocks (header : String) (blocks : List (String × List String))
    (r : Nat) (hne : blocks ≠ [])
    (hok : ∀ b ∈ blocks, blockOk b = true)
    (hrows : ∀ b ∈ blocks, b.2.length = r) :
    reformat_LTSpice_export (header :: (blocks.map (fun b => b.1 :: b.2)).flatten) =
      .ok (("Run\t" ++ mPH (blocks.headD ("", [])).1 ++ "\t" ++ header) ::
        (blocks.map (fun b =>
          b.2.map (fun d => mRun b.1 ++ "\t" ++ mPV b.1 ++ "\t" ++ d))).flatten) ∧
    (("Run\t" ++ mPH (blocks.headD ("", [])).1 ++ "\t" ++ header) ::
        (blocks.map (fun b =>
          b.2.map (fun d => mRun b.1 ++ "\t" ++ mPV b.1 ++ "\t" ++ d))).flatten).length =
      1 + blocks.length * r := by
  constructor
  · cases blocks with
    | nil => exact absurd rfl hne
    | cons b bs =>
        obtain ⟨mk, rows⟩ := b
        have hb := hok (mk, rows) (List.mem_cons_self _ _)
        have hbs := fun x hx => hok x (List.mem_cons_of_mem _ hx)
        have hbrows := hrows (mk, rows) (List.mem_cons_self _ _)
        simp only [blockOk] at hb
        cases hsm : stepInfoMatch mk with
        | none => rw [hsm] at hb; simp at hb
        | some sr =>
            rw [hsm] at hb
            simp only [Bool.and_eq_true, List.all_eq_true, Bool.not_eq_true'] at hb
            obtain ⟨hpv, hdrows⟩ := hb
            obtain ⟨pv', hpv'⟩ : ∃ x, pvOfStep sr.1 = .ok x := by
              cases hx : pvOfStep sr.1 with
              | error e => rw [hx] at hpv; simp [Except.isOk, Except.toBool] at hpv
              | ok x => exact ⟨x, rfl⟩
            simp only [reformat_LTSpice_export, List.headD_cons, List.tail_cons,
              List.map_cons, List.flatten_cons, List.cons_append, reformatLoop,
              stepInfoMatch_startsWith mk sr hsm, if_pos rfl, hsm, hpv', if_true]
            have hrows' : reformatLoop header
                (rows ++ (bs.map (fun b => b.1 :: b.2)).flatten) false sr.2 pv' =
                (reformatLoop header ((bs.map (fun b => b.1 :: b.2)).flatten) false
                  sr.2 pv').map
                  (fun out => rows.map (fun d => sr.2 ++ "\t" ++ pv' ++ "\t" ++ d) ++ out) :=
              reformatLoop_rows header rows _ false sr.2 pv' hdrows
            have hblocks := reformatLoop_blocks header bs sr.2 pv' hbs
            rw [show rows.append ((bs.map (fun b => b.1 :: b.2)).flatten) =
              rows ++ (bs.map (fun b => b.1 :: b.2)).flatten from rfl, hrows', hblocks]
            simp [Except.map, mRun, mPV, mPH, hsm, hpv', Except.toOption]
  · simp only [List.length_cons, blocks_rows_length blocks r hrows]
    omega

/-- C4 witness: the theorem applied to two concrete one-row blocks. -/
theorem reformat_step_blocks_witness :
    reformat_LTSpice_export ("h\n" ::
        (([("Step Information: x=1  (Run: 1/2)\n", ["a\n"]),
           ("Step Information: x=2  (Run: 2/2)\n", ["b\n"])] :
          List (String × List String)).map (fun b => b.1 :: b.2)).flatten) =
      .ok (("Run\t" ++
          mPH (([("Step Information: x=1  (Run: 1/2)\n", ["a\n"]),
                 ("Step Information: x=2  (Run: 2/2)\n", ["b\n"])] :
            List (String × List String)).headD ("", []) |>.1) ++ "\t" ++ "h\n") ::
        (([("Step Information: x=1  (Run: 1/2)\n", ["a\n"]),
           ("Step Information: x=2  (Run: 2/2)\n", ["b\n"])] :
          List (String × List String)).map (fun b =>
          b.2.map (fun d => mRun b.1 ++ "\t" ++ mPV b.1 ++ "\t" ++ d))).flatten) ∧
    (("Run\t" ++
        mPH (([("Step Information: x=1  (Run: 1/2)\n", ["a\n"]),
               ("Step Information: x=2  (Run: 2/2)\n", ["b\n"])] :
          List (String × List String)).headD ("", []) |>.1) ++ "\t" ++ "h\n") ::
      (([("Step Information: x=1  (Run: 1/2)\n", ["a\n"]),
         ("Step Information: x=2  (Run: 2/2)\n", ["b\n"])] :
        List (String × List String)).map (fun b =>
        b.2.map (fun d => mRun b.1 ++ "\t" ++ mPV b.1 ++ "\t" ++ d))).flatten).length =
      1 + ([("Step Information: x=1  (Run: 1/2)\n", ["a\n"]),
            ("Step Information: x=2  (Run: 2/2)\n", ["b\n"])] :
        List (String × List String)).length * 1 :=
  reformat_step_blocks "h\n"
    [("Step Information: x=1  (Run: 1/2)\n", ["a\n"]),
     ("Step Information: x=2  (Run: 2/2)\n", ["b\n"])] 1
    (by decide) (by decide) (by decide)

theorem reformatLoop_pre_marker (header : String) :
    ∀ (pre rest : List String), (∀ l ∈ pre, stepInfoMatch l = none) →
      reformatLoop header (pre ++ rest) true "0" "" =
        (reformatLoop header rest true "0" "").map
          (fun out => (pre.filter (fun l => !(pyStartsWith l "Step Information:"))).map
            (fun l => "0\t\t" ++ l) ++ out) := by
  intro pre
  induction pre with
  | nil =>
      intro rest _
      cases h : reformatLoop header rest true "0" "" <;> simp [Except.map, h]
  | cons l pre ih =>
      intro rest hpre
      have hl := hpre l (List.mem_cons_self l pre)
      have hrest := fun x hx => hpre x (List.mem_cons_of_mem l hx)
      by_cases hsw : pyStartsWith l "Step Information:" = true
      · simp only [List.cons_append, reformatLoop, hsw, if_true, hl]
        have ih' : reformatLoop header (pre.append rest) true "0" "" =
            (reformatLoop header rest true "0" "").map
              (fun out => (pre.filter (fun l => !(pyStartsWith l "Step Information:"))).map
                (fun l => "0\t\t" ++ l) ++ out) := ih rest hrest
        rw [ih', List.filter_cons_of_neg (by simp [hsw])]
      · simp only [List.cons_append, reformatLoop, hsw, Bool.false_eq_true, if_false]
        have ih' : reformatLoop header (pre.append rest) true "0" "" =
            (reformatLoop header rest true "0" "").map
              (fun out => (pre.filter (fun l => !(pyStartsWith l "Step Information:"))).map
                (fun l => "0\t\t" ++ l) ++ out) := ih rest hrest
        rw [ih', List.filter_cons_of_pos (by simp [hsw])]
        cases h : reformatLoop header rest true "0" "" <;> simp [Except.map, h]

/-- C9 (confirmed): every data line between the input header and the first
matching "Step Information:" marker is written prefixed by run number 0 and
an empty parameter-values field (the literal `"0\t\t"`), lines that begin
with "Step Information:" but fail the pattern are dropped, and when no line
matches a marker at all the output consists of those prefixed data lines
only — no header line is ever written. -/
theorem reformat_before_first_marker (header : String) (pre rest : List String)
    (hpre : ∀ l ∈ pre, stepInfoMatch l = none) :
    reformatLoop header (pre ++ rest) true "0" "" =
      (reformatLoop header rest true "0" "").map
        (fun out => (pre.filter (fun l => !(pyStartsWith l "Step Information:"))).map
          (fun l => "0\t\t" ++ l) ++ out) ∧
    reformat_LTSpice_export (header :: pre) =
      .ok ((pre.filter (fun l => !(pyStartsWith l "Step Information:"))).map
        (fun l => "0\t\t" ++ l)) := by
  refine ⟨reformatLoop_pre_marker header pre rest hpre, ?_⟩
  have h2 := reformatLoop_pre_marker header pre [] hpre
  rw [List.append_nil] at h2
  simp only [reformat_LTSpice_export, List.headD_cons, List.tail_cons, h2]
  simp [Except.map, reformatLoop]

/-- C9 witness: the theorem applied to a concrete pre-marker segment holding
one data row and one malformed marker line. -/
theorem reformat_before_first_marker_witness :
    reformatLoop "h\n" (["a\t1\n", "Step Information: bogus\n"] ++ ["z\n"]) true "0" "" =
      (reformatLoop "h\n" ["z\n"] true "0" "").map
        (fun out => ((["a\t1\n", "Step Information: bogus\n"] : List String).filter
          (fun l => !(pyStartsWith l "Step Information:"))).map
          (fun l => "0\t\t" ++ l) ++ out) ∧
    reformat_LTSpice_export ("h\n" :: ["a\t1\n", "Step Information: bogus\n"]) =
      .ok (((["a\t1\n", "Step Information: bogus\n"] : List String).filter
        (fun l => !(pyStartsWith l "Step Information:"))).map
        (fun l => "0\t\t" ++ l)) :=
  reformat_before_first_marker "h\n" ["a\t1\n", "Step Information: bogus\n"] ["z\n"]
    (by decide)
